import Mathlib

/-!
Verification of the schema-less relational normalizer (component-airtable).

This file shallowly embeds the core of src/src/transformation.py and the
relevant parts of src/src/component.py:

* JSON-like record values (as parsed by Python's json module: dicts, lists,
  strings, ints, bools, null; floats are outside the modelled universe since
  no claim involves them),
* Python dict semantics (insertion order, overwrite in place) as association
  lists,
* the per-field classifier ColumnType.from_example_value,
* flatten_dict, json.dumps (default separators, ensure_ascii, and the
  sort_keys=True variant), md5 hexdigest,
* Table.add_row as a fuel-indexed interpreter addRowF that also returns the
  record as mutated by parent-id injection (the Python code mutates the
  dicts nested inside the record it is given),
* Component.remove_non_utf8 and the encoding-fallback retry of process_table.

Running out of fuel is a distinguished error, never a wrong result, so
theorems conditioned on an ok result speak about every real execution.
-/

/-- A JSON-like value as produced by Python's json parsing: the universe of
raw record values handled by the transformation module. Numbers are modelled
as integers (no claim involves floats). -/
inductive JValue where
  | null
  | bool (b : Bool)
  | int (n : Int)
  | str (s : String)
  | arr (xs : List JValue)
  | obj (fields : List (String × JValue))

mutual
def decEqJ : (a b : JValue) → Decidable (a = b)
  | .null, .null => .isTrue rfl
  | .bool a, .bool b =>
    if h : a = b then .isTrue (by rw [h]) else .isFalse (by simp [h])
  | .int a, .int b =>
    if h : a = b then .isTrue (by rw [h]) else .isFalse (by simp [h])
  | .str a, .str b =>
    if h : a = b then .isTrue (by rw [h]) else .isFalse (by simp [h])
  | .arr a, .arr b =>
    match decEqJL a b with
    | .isTrue h => .isTrue (by rw [h])
    | .isFalse h => .isFalse (by simp [h])
  | .obj a, .obj b =>
    match decEqJF a b with
    | .isTrue h => .isTrue (by rw [h])
    | .isFalse h => .isFalse (by simp [h])
  | .null, .bool _ => .isFalse nofun
  | .null, .int _ => .isFalse nofun
  | .null, .str _ => .isFalse nofun
  | .null, .arr _ => .isFalse nofun
  | .null, .obj _ => .isFalse nofun
  | .bool _, .null => .isFalse nofun
  | .bool _, .int _ => .isFalse nofun
  | .bool _, .str _ => .isFalse nofun
  | .bool _, .arr _ => .isFalse nofun
  | .bool _, .obj _ => .isFalse nofun
  | .int _, .null => .isFalse nofun
  | .int _, .bool _ => .isFalse nofun
  | .int _, .str _ => .isFalse nofun
  | .int _, .arr _ => .isFalse nofun
  | .int _, .obj _ => .isFalse nofun
  | .str _, .null => .isFalse nofun
  | .str _, .bool _ => .isFalse nofun
  | .str _, .int _ => .isFalse nofun
  | .str _, .arr _ => .isFalse nofun
  | .str _, .obj _ => .isFalse nofun
  | .arr _, .null => .isFalse nofun
  | .arr _, .bool _ => .isFalse nofun
  | .arr _, .int _ => .isFalse nofun
  | .arr _, .str _ => .isFalse nofun
  | .arr _, .obj _ => .isFalse nofun
  | .obj _, .null => .isFalse nofun
  | .obj _, .bool _ => .isFalse nofun
  | .obj _, .int _ => .isFalse nofun
  | .obj _, .str _ => .isFalse nofun
  | .obj _, .arr _ => .isFalse nofun
def decEqJL : (a b : List JValue) → Decidable (a = b)
  | [], [] => .isTrue rfl
  | [], _ :: _ => .isFalse nofun
  | _ :: _, [] => .isFalse nofun
  | x :: xs, y :: ys =>
    match decEqJ x y with
    | .isTrue h1 =>
      match decEqJL xs ys with
      | .isTrue h2 => .isTrue (by rw [h1, h2])
      | .isFalse h2 => .isFalse (by simp [h2])
    | .isFalse h1 => .isFalse (by simp [h1])
def decEqJF : (a b : List (String × JValue)) → Decidable (a = b)
  | [], [] => .isTrue rfl
  | [], _ :: _ => .isFalse nofun
  | _ :: _, [] => .isFalse nofun
  | (k, v) :: xs, (k2, v2) :: ys =>
    if h : k = k2 then
      match decEqJ v v2 with
      | .isTrue h1 =>
        match decEqJF xs ys with
        | .isTrue h2 => .isTrue (by rw [h, h1, h2])
        | .isFalse h2 => .isFalse (by simp [h2])
      | .isFalse h1 => .isFalse (by simp [h1])
    else .isFalse (by simp [h])
end

instance : DecidableEq JValue := decEqJ

/-- Python truthiness on the modelled values: `not value` in
add_value_to_row is true exactly for None, False, 0, the empty string, the
empty list and the empty dict. -/
def JValue.falsy : JValue → Bool
  | .null => true
  | .bool b => !b
  | .int n => n == 0
  | .str s => s == ""
  | .arr xs => xs.isEmpty
  | .obj fs => fs.isEmpty

/-- An ELEMENTARY value in the source's sense: int, float, str, bool or None
(typeguard check against the ELEMENTARY_TYPE union). -/
def JValue.isElementary : JValue → Bool
  | .null => true
  | .bool _ => true
  | .int _ => true
  | .str _ => true
  | _ => false

/-- A value that is a Python dict (MutableMapping / bare Dict). -/
def JValue.isObj : JValue → Bool
  | .obj _ => true
  | _ => false

/-- The structural categories of ColumnType in transformation.py. -/
inductive ColumnType where
  | elementary
  | object
  | array_of_elementary
  | array_of_objects
deriving DecidableEq

/-- ColumnType.from_example_value: tries the enum members in declaration
order (ELEMENTARY, OBJECT, ARRAY_OF_ELEMENTARY, ARRAY_OF_OBJECTS) with
typeguard and returns the first match; none models the ValueError raised on
a value matching no member (e.g. a mixed-element or nested-list array).
Note an empty list matches List of ELEMENTARY first, as with typeguard. -/
def ColumnType.from_example_value : JValue → Option ColumnType
  | .arr xs =>
    if xs.all JValue.isElementary then some .array_of_elementary
    else if xs.all JValue.isObj then some .array_of_objects
    else none
  | .obj _ => some .object
  | _ => some .elementary

/-- Python dict lookup d.get(k) / d[k] on an insertion-ordered association
list (the model of a Python dict). -/
def pyGet {κ α : Type} [DecidableEq κ] : List (κ × α) → κ → Option α
  | [], _ => none
  | (k, v) :: rest, key => if k = key then some v else pyGet rest key

/-- Python dict assignment d[k] = v: overwrites in place if the key exists
(keeping its position), otherwise appends. -/
def pySet {κ α : Type} [DecidableEq κ] : List (κ × α) → κ → α → List (κ × α)
  | [], key, value => [(key, value)]
  | (k, v) :: rest, key, value =>
    if k = key then (k, value) :: rest else (k, v) :: pySet rest key value

/-- Python dict(items): builds a dict from a pair list; a repeated key keeps
its first position but takes its last value. -/
def pyDict {κ α : Type} [DecidableEq κ] (items : List (κ × α)) : List (κ × α) :=
  items.foldl (fun d p => pySet d p.1 p.2) []

theorem pyGet_pySet_self {κ α : Type} [DecidableEq κ] (d : List (κ × α)) (k : κ) (v : α) :
    pyGet (pySet d k v) k = some v := by
  induction d with
  | nil => simp [pySet, pyGet]
  | cons p rest ih =>
    obtain ⟨k', v'⟩ := p
    by_cases h : k' = k
    · simp [pySet, pyGet, h]
    · simp [pySet, pyGet, h, ih]

theorem pyGet_pySet_ne {κ α : Type} [DecidableEq κ] (d : List (κ × α)) (k k' : κ) (v : α)
    (h : k ≠ k') : pyGet (pySet d k v) k' = pyGet d k' := by
  induction d with
  | nil => simp [pySet, pyGet, h]
  | cons p rest ih =>
    obtain ⟨k0, v0⟩ := p
    by_cases h0 : k0 = k
    · subst h0
      simp [pySet, pyGet, h]
    · simp [pySet, pyGet, h0, ih]

theorem mem_pySet {κ α : Type} [DecidableEq κ] (d : List (κ × α)) (k : κ) (v : α) :
    ∀ p ∈ pySet d k v, p ∈ d ∨ p = (k, v) := by
  induction d with
  | nil => simp [pySet]
  | cons q rest ih =>
    obtain ⟨k0, v0⟩ := q
    intro p hp
    by_cases h0 : k0 = k
    · subst h0
      simp [pySet] at hp
      rcases hp with h | h
      · exact Or.inr (by simp [h])
      · exact Or.inl (by simp [h])
    · simp [pySet, h0] at hp
      rcases hp with h | h
      · exact Or.inl (by simp [h])
      · rcases ih p h with h' | h'
        · exact Or.inl (by simp [h'])
        · exact Or.inr h'

theorem mem_pyDict {κ α : Type} [DecidableEq κ] (items : List (κ × α)) :
    ∀ p ∈ pyDict items, p ∈ items := by
  suffices h : ∀ (acc : List (κ × α)) p,
      p ∈ items.foldl (fun d q => pySet d q.1 q.2) acc → p ∈ acc ∨ p ∈ items by
    intro p hp
    rcases h [] p hp with h' | h'
    · simp at h'
    · exact h'
  induction items with
  | nil => intro acc p hp; exact Or.inl hp
  | cons q rest ih =>
    intro acc p hp
    rcases ih (pySet acc q.1 q.2) p hp with h' | h'
    · rcases mem_pySet acc q.1 q.2 p h' with h'' | h''
      · exact Or.inl h''
      · exact Or.inr (by simp [h''])
    · exact Or.inr (by simp [h'])

/-- Keys of a pySet result: the assigned key together with the old keys. -/
theorem keys_pySet {κ α : Type} [DecidableEq κ] (d : List (κ × α)) (k : κ) (v : α) :
    ((pySet d k v).map Prod.fst) = if k ∈ d.map Prod.fst then d.map Prod.fst
      else d.map Prod.fst ++ [k] := by
  induction d with
  | nil => simp [pySet]
  | cons q rest ih =>
    obtain ⟨k0, v0⟩ := q
    by_cases h0 : k0 = k
    · subst h0
      simp [pySet]
    · have h1 : ¬ k = k0 := fun h => h0 h.symm
      by_cases hc : k ∈ rest.map Prod.fst
      · simp [pySet, h0, ih, hc, h1]
      · simp [pySet, h0, ih, hc, h1]

/-- Four lowercase hex digits of a code point below 0x10000, as in the
backslash-u escapes json.dumps emits with ensure_ascii (the default). -/
def hexDigit (n : Nat) : Char :=
  if n < 10 then Char.ofNat (48 + n) else Char.ofNat (87 + n)

def hex4 (n : Nat) : String :=
  String.mk [hexDigit (n / 4096 % 16), hexDigit (n / 256 % 16),
    hexDigit (n / 16 % 16), hexDigit (n % 16)]

/-- The escape json.dumps (ensure_ascii=True, the default) applies to one
character of a string: the two-character escapes for quote, backslash and
the common control characters, backslash-u escapes for other control
characters and all non-ASCII characters (with a surrogate pair above
0xFFFF), and the character itself otherwise. -/
def jsonEscapeChar (c : Char) : String :=
  if c = '"' then "\\\""
  else if c = '\\' then "\\\\"
  else if c = '\n' then "\\n"
  else if c = '\r' then "\\r"
  else if c = '\t' then "\\t"
  else if c = Char.ofNat 8 then "\\b"
  else if c = Char.ofNat 12 then "\\f"
  else if c.toNat < 0x20 then "\\u" ++ hex4 c.toNat
  else if c.toNat ≤ 0x7e then String.mk [c]
  else if c.toNat < 0x10000 then "\\u" ++ hex4 c.toNat
  else
    "\\u" ++ hex4 (0xd800 + (c.toNat - 0x10000) / 0x400) ++
      "\\u" ++ hex4 (0xdc00 + (c.toNat - 0x10000) % 0x400)

def jsonQuote (s : String) : String :=
  "\"" ++ String.join (s.toList.map jsonEscapeChar) ++ "\""

mutual
/-- json.dumps with the default separators (comma-space between items,
colon-space after keys) and default ensure_ascii, on the modelled values. -/
def jsonDumps : JValue → String
  | .null => "null"
  | .bool true => "true"
  | .bool false => "false"
  | .int n => toString n
  | .str s => jsonQuote s
  | .arr xs => "[" ++ jsonDumpsList xs ++ "]"
  | .obj fs => "\x7b" ++ jsonDumpsFields fs ++ "\x7d"
def jsonDumpsList : List JValue → String
  | [] => ""
  | [x] => jsonDumps x
  | x :: y :: xs => jsonDumps x ++ ", " ++ jsonDumpsList (y :: xs)
def jsonDumpsFields : List (String × JValue) → String
  | [] => ""
  | [(k, v)] => jsonQuote k ++ ": " ++ jsonDumps v
  | (k, v) :: p :: fs => jsonQuote k ++ ": " ++ jsonDumps v ++ ", " ++ jsonDumpsFields (p :: fs)
end

/-- Lexicographic code-point comparison of strings given as char lists:
CPython compares str values by Unicode code point, the order sorted() uses
on the keys in json.dumps with sort_keys=True. Stated on List Char so that
it evaluates by kernel reduction (String.ltb, behind String's own order,
does not). -/
def charsLE : List Char → List Char → Bool
  | [], _ => true
  | _ :: _, [] => false
  | a :: as, b :: bs =>
    if a.toNat < b.toNat then true
    else if b.toNat < a.toNat then false
    else charsLE as bs

theorem charsLE_total : ∀ (as bs : List Char),
    charsLE as bs = true ∨ charsLE bs as = true
  | [], _ => .inl rfl
  | _ :: _, [] => .inr rfl
  | a :: as, b :: bs => by
    simp only [charsLE]
    rcases Nat.lt_trichotomy a.toNat b.toNat with h | h | h
    · left; simp [h]
    · rcases charsLE_total as bs with h2 | h2
      · left; simp [h, h2]
      · right; simp [h, h2]
    · right; simp [h]

theorem charsLE_trans : ∀ (as bs cs : List Char), charsLE as bs = true →
    charsLE bs cs = true → charsLE as cs = true
  | [], _, _, _, _ => rfl
  | _ :: _, [], _, h1, _ => by simp [charsLE] at h1
  | _ :: _, _ :: _, [], _, h2 => by simp [charsLE] at h2
  | a :: as, b :: bs, c :: cs, h1, h2 => by
    simp only [charsLE] at h1 h2 ⊢
    split_ifs at h1 h2 ⊢ <;>
      first
        | rfl
        | omega
        | simp at h1
        | simp at h2
        | exact charsLE_trans as bs cs h1 h2

theorem charsLE_antisymm : ∀ (as bs : List Char), charsLE as bs = true →
    charsLE bs as = true → as = bs
  | [], [], _, _ => rfl
  | [], _ :: _, _, h2 => by simp [charsLE] at h2
  | _ :: _, [], h1, _ => by simp [charsLE] at h1
  | a :: as, b :: bs, h1, h2 => by
    simp only [charsLE] at h1 h2
    split_ifs at h1 h2 with hab hba <;>
      first
        | omega
        | simp at h1
        | simp at h2
        | rw [Char.ext (UInt32.ext (show a.toNat = b.toNat by omega)),
            charsLE_antisymm as bs h1 h2]

/-- Ordering of dict entries by key, as sorted(d.items()) orders them in
json.dumps with sort_keys=True (keys are unique in a Python dict, so the
tuple comparison never reaches the values). -/
def keyLE (a b : String × JValue) : Prop := charsLE a.1.data b.1.data = true

instance : DecidableRel keyLE :=
  fun a b => inferInstanceAs (Decidable (charsLE a.1.data b.1.data = true))

instance : IsTotal (String × JValue) keyLE := ⟨fun a b => charsLE_total a.1.data b.1.data⟩

instance : IsTrans (String × JValue) keyLE :=
  ⟨fun _ _ _ h1 h2 => charsLE_trans _ _ _ h1 h2⟩

/-- The strict refinement of keyLE on entries with distinct keys; the sorted
runs that insertionSort produces on nodup-key field lists are sorted for it,
and it is antisymmetric, which pins the sorted list down uniquely. -/
def keyLT (a b : String × JValue) : Prop := keyLE a b ∧ a.1 ≠ b.1

instance : IsAntisymm (String × JValue) keyLT :=
  ⟨fun _ _ h1 h2 =>
    (h1.2 (congrArg String.mk (charsLE_antisymm _ _ h1.1 h2.1))).elim⟩

mutual
/-- Recursively sorts every object's fields by key (stably). json.dumps with
sort_keys=True serializes exactly the keySort image of a value under the
plain (unsorted) serializer. -/
def keySort : JValue → JValue
  | .arr xs => .arr (keySortL xs)
  | .obj fs => .obj (List.insertionSort keyLE (keySortF fs))
  | v => v
def keySortL : List JValue → List JValue
  | [] => []
  | x :: xs => keySort x :: keySortL xs
def keySortF : List (String × JValue) → List (String × JValue)
  | [] => []
  | (k, v) :: fs => (k, keySort v) :: keySortF fs
end

/-- json.dumps(value, sort_keys=True): the plain serializer applied to the
recursively key-sorted value (Python's sort is stable; on dicts, whose keys
are unique, sorting by the item tuple is sorting by key). -/
def jsonDumpsSorted (v : JValue) : String := jsonDumps (keySort v)

/-- UTF-8 encoding of one character (str.encode of Python, byte by byte). -/
def utf8EncodeChar (c : Char) : List Nat :=
  let n := c.toNat
  if n < 0x80 then [n]
  else if n < 0x800 then [0xc0 + n / 64, 0x80 + n % 64]
  else if n < 0x10000 then [0xe0 + n / 4096, 0x80 + n / 64 % 64, 0x80 + n % 64]
  else [0xf0 + n / 262144, 0x80 + n / 4096 % 64, 0x80 + n / 64 % 64, 0x80 + n % 64]

/-- s.encode of Python: the UTF-8 bytes of a string. -/
def utf8Bytes (s : String) : List Nat :=
  (s.toList.map utf8EncodeChar).flatten

/-- 2 to the 32nd, the word modulus of md5 arithmetic. -/
def M32 : Nat := 4294967296

def rotl32 (x c : Nat) : Nat :=
  ((Nat.shiftLeft x c) ||| (Nat.shiftRight x (32 - c))) % M32

/-- The 64 sine-derived round constants of md5 (RFC 1321). -/
def md5K : List Nat :=
  [0xd76aa478, 0xe8c7b756, 0x242070db, 0xc1bdceee, 0xf57c0faf, 0x4787c62a,
   0xa8304613, 0xfd469501, 0x698098d8, 0x8b44f7af, 0xffff5bb1, 0x895cd7be,
   0x6b901122, 0xfd987193, 0xa679438e, 0x49b40821, 0xf61e2562, 0xc040b340,
   0x265e5a51, 0xe9b6c7aa, 0xd62f105d, 0x02441453, 0xd8a1e681, 0xe7d3fbc8,
   0x21e1cde6, 0xc33707d6, 0xf4d50d87, 0x455a14ed, 0xa9e3e905, 0xfcefa3f8,
   0x676f02d9, 0x8d2a4c8a, 0xfffa3942, 0x8771f681, 0x6d9d6122, 0xfde5380c,
   0xa4beea44, 0x4bdecfa9, 0xf6bb4b60, 0xbebfbc70, 0x289b7ec6, 0xeaa127fa,
   0xd4ef3085, 0x04881d05, 0xd9d4d039, 0xe6db99e5, 0x1fa27cf8, 0xc4ac5665,
   0xf4292244, 0x432aff97, 0xab9423a7, 0xfc93a039, 0x655b59c3, 0x8f0ccc92,
   0xffeff47d, 0x85845dd1, 0x6fa87e4f, 0xfe2ce6e0, 0xa3014314, 0x4e0811a1,
   0xf7537e82, 0xbd3af235, 0x2ad7d2bb, 0xeb86d391]

/-- The per-round left-rotation amounts of md5. -/
def md5S : List Nat :=
  [7, 12, 17, 22, 7, 12, 17, 22, 7, 12, 17, 22, 7, 12, 17, 22,
   5, 9, 14, 20, 5, 9, 14, 20, 5, 9, 14, 20, 5, 9, 14, 20,
   4, 11, 16, 23, 4, 11, 16, 23, 4, 11, 16, 23, 4, 11, 16, 23,
   6, 10, 15, 21, 6, 10, 15, 21, 6, 10, 15, 21, 6, 10, 15, 21]

/-- One round of the md5 compression function on state (a, b, c, d) with
message words m, round index i. -/
def md5Step (m : List Nat) (st : Nat × Nat × Nat × Nat) (i : Nat) :
    Nat × Nat × Nat × Nat :=
  let a := st.1
  let b := st.2.1
  let c := st.2.2.1
  let d := st.2.2.2
  let f :=
    if i < 16 then (b &&& c) ||| ((M32 - 1 - b) &&& d)
    else if i < 32 then (d &&& b) ||| ((M32 - 1 - d) &&& c)
    else if i < 48 then b ^^^ c ^^^ d
    else c ^^^ (b ||| (M32 - 1 - d))
  let g :=
    if i < 16 then i
    else if i < 32 then (5 * i + 1) % 16
    else if i < 48 then (3 * i + 5) % 16
    else (7 * i) % 16
  let tmp := (a + f + md5K.getD i 0 + m.getD g 0) % M32
  let a2 := (b + rotl32 tmp (md5S.getD i 0)) % M32
  (d, a2, b, c)

def md5Rounds (st0 : Nat × Nat × Nat × Nat) (m : List Nat) : Nat → Nat × Nat × Nat × Nat
  | 0 => st0
  | n + 1 => md5Step m (md5Rounds st0 m n) n

/-- Processes one 64-byte chunk: 64 rounds, then the feed-forward addition. -/
def md5Compress (st : Nat × Nat × Nat × Nat) (m : List Nat) : Nat × Nat × Nat × Nat :=
  let r := md5Rounds st m 64
  ((st.1 + r.1) % M32, (st.2.1 + r.2.1) % M32,
    (st.2.2.1 + r.2.2.1) % M32, (st.2.2.2 + r.2.2.2) % M32)

/-- Little-endian bytes of a number, to a given count. -/
def leBytes : Nat → Nat → List Nat
  | _, 0 => []
  | n, c + 1 => (n % 256) :: leBytes (n / 256) c

/-- Groups a byte list into little-endian 32-bit words. -/
def toWords : List Nat → List Nat
  | b0 :: b1 :: b2 :: b3 :: rest =>
    (b0 + 256 * b1 + 65536 * b2 + 16777216 * b3) :: toWords rest
  | _ => []

/-- md5 padding: a 0x80 byte, zeros to 56 mod 64, then the original bit
length as 8 little-endian bytes. -/
def md5Pad (msg : List Nat) : List Nat :=
  let len := msg.length
  let zeros := (64 + 56 - (len + 1) % 64) % 64
  msg ++ [0x80] ++ List.replicate zeros 0 ++ leBytes (len * 8 % 18446744073709551616) 8

def md5Chunks (st : Nat × Nat × Nat × Nat) (bytes : List Nat) :
    Nat → Nat × Nat × Nat × Nat
  | 0 => st
  | k + 1 => md5Chunks (md5Compress st (toWords (bytes.take 64))) (bytes.drop 64) k

def byteHexChars (b : Nat) : List Char := [hexDigit (b / 16 % 16), hexDigit (b % 16)]

/-- hashlib.md5(bytes).hexdigest(): the lowercase hex digest of md5. -/
def md5hex (msg : List Nat) : String :=
  let padded := md5Pad msg
  let st := md5Chunks (0x67452301, 0xefcdab89, 0x98badcfe, 0x10325476) padded (padded.length / 64)
  String.mk (((leBytes st.1 4 ++ leBytes st.2.1 4 ++ leBytes st.2.2.1 4 ++
    leBytes st.2.2.2 4).map byteHexChars).flatten)

set_option maxRecDepth 10000 in
example : md5hex (utf8Bytes "") = "d41d8cd98f00b204e9800998ecf8427e" := by decide

set_option maxRecDepth 10000 in
example : md5hex (utf8Bytes "abc") = "900150983cd24fb0d6963f7d28e17f72" := by decide

theorem md5hex_length (msg : List Nat) : (md5hex msg).length = 32 := by
  simp [md5hex, leBytes, byteHexChars, String.length]

theorem md5hex_ne_empty (msg : List Nat) : md5hex msg ≠ "" := by
  intro h
  have h32 := md5hex_length msg
  rw [h] at h32
  simp at h32

mutual
/-- Well-formed values: every object, at every depth, has pairwise distinct
keys, as any value produced by Python's json parsing does (a Python dict
cannot repeat a key). -/
def wfJ : JValue → Bool
  | .obj fs => decide ((fs.map Prod.fst).Nodup) && wfF fs
  | .arr xs => wfL xs
  | _ => true
def wfL : List JValue → Bool
  | [] => true
  | x :: xs => wfJ x && wfL xs
def wfF : List (String × JValue) → Bool
  | [] => true
  | (_, v) :: fs => wfJ v && wfF fs
end

mutual
/-- Equality of values as nested key-value mappings: identical leaves,
pointwise equivalent arrays, and objects carrying the same keys with
equivalent values, in any key order, at every nesting level. -/
inductive MapsEq : JValue → JValue → Prop where
  | null : MapsEq .null .null
  | bool (b : Bool) : MapsEq (.bool b) (.bool b)
  | int (n : Int) : MapsEq (.int n) (.int n)
  | str (s : String) : MapsEq (.str s) (.str s)
  | arr (xs ys : List JValue) : MapsEqL xs ys → MapsEq (.arr xs) (.arr ys)
  | obj (fs gs gs' : List (String × JValue)) : gs'.Perm gs → MapsEqF fs gs' →
      MapsEq (.obj fs) (.obj gs)
/-- Pointwise MapsEq on lists. -/
inductive MapsEqL : List JValue → List JValue → Prop where
  | nil : MapsEqL [] []
  | cons (x y : JValue) (xs ys : List JValue) : MapsEq x y → MapsEqL xs ys →
      MapsEqL (x :: xs) (y :: ys)
/-- Pointwise same-key MapsEq on field lists. -/
inductive MapsEqF : List (String × JValue) → List (String × JValue) → Prop where
  | nil : MapsEqF [] []
  | cons (k : String) (v w : JValue) (fs gs : List (String × JValue)) :
      MapsEq v w → MapsEqF fs gs → MapsEqF ((k, v) :: fs) ((k, w) :: gs)
end

theorem keySortF_eq_map (fs : List (String × JValue)) :
    keySortF fs = fs.map (fun p => (p.1, keySort p.2)) := by
  induction fs with
  | nil => simp [keySortF]
  | cons p rest ih =>
    obtain ⟨k, v⟩ := p
    simp [keySortF, ih]

theorem wfF_iff (fs : List (String × JValue)) :
    wfF fs = true ↔ ∀ p ∈ fs, wfJ p.2 = true := by
  induction fs with
  | nil => simp [wfF]
  | cons p rest ih =>
    obtain ⟨k, v⟩ := p
    simp [wfF, ih]

theorem wfL_iff (xs : List JValue) :
    wfL xs = true ↔ ∀ x ∈ xs, wfJ x = true := by
  induction xs with
  | nil => simp [wfL]
  | cons x rest ih => simp [wfL, ih]

/-- Two key-nodup permutations of the same field list sort identically. -/
theorem insertionSort_eq_of_perm (A B : List (String × JValue)) (hperm : A.Perm B)
    (hnd : (A.map Prod.fst).Nodup) :
    List.insertionSort keyLE A = List.insertionSort keyLE B := by
  have hsA := List.sorted_insertionSort keyLE A
  have hsB := List.sorted_insertionSort keyLE B
  have hpA := List.perm_insertionSort keyLE A
  have hpB := List.perm_insertionSort keyLE B
  have hchain : (List.insertionSort keyLE A).Perm (List.insertionSort keyLE B) :=
    (hpA.trans hperm).trans hpB.symm
  have hndA : ((List.insertionSort keyLE A).map Prod.fst).Nodup :=
    (hpA.map Prod.fst).nodup_iff.mpr hnd
  have hndB : ((List.insertionSort keyLE B).map Prod.fst).Nodup := by
    have hndB0 : (B.map Prod.fst).Nodup := (hperm.map Prod.fst).nodup_iff.mp hnd
    exact (hpB.map Prod.fst).nodup_iff.mpr hndB0
  have toLT : ∀ (l : List (String × JValue)), l.Sorted keyLE →
      ((l.map Prod.fst).Nodup) → l.Sorted keyLT := by
    intro l hs hn
    have hpne : l.Pairwise (fun a b : String × JValue => a.1 ≠ b.1) :=
      (List.pairwise_map).mp hn
    have := hs.and hpne
    exact this.imp (fun h => ⟨h.1, h.2⟩)
  exact List.eq_of_perm_of_sorted hchain (toLT _ hsA hndA) (toLT _ hsB hndB)

mutual
/-- Values equal as nested mappings have the same recursively key-sorted
form (hence the same sorted-key JSON serialization). -/
theorem mapsEq_keySort : ∀ {a b : JValue}, MapsEq a b → wfJ a = true → wfJ b = true →
    keySort a = keySort b
  | _, _, .null, _, _ => rfl
  | _, _, .bool b, _, _ => rfl
  | _, _, .int n, _, _ => rfl
  | _, _, .str s, _, _ => rfl
  | _, _, .arr xs ys h, ha, hb => by
    simp only [keySort]
    simp only [wfJ] at ha hb
    exact congrArg JValue.arr (mapsEqL_keySort h ha hb)
  | _, _, .obj fs gs gs' hperm hf, ha, hb => by
    simp only [keySort]
    simp only [wfJ, Bool.and_eq_true, decide_eq_true_eq] at ha hb
    have hwfgs' : wfF gs' = true := by
      rw [wfF_iff]
      intro p hp
      exact (wfF_iff gs).mp hb.2 p (hperm.mem_iff.mp hp)
    have h1 : keySortF fs = keySortF gs' := mapsEqF_keySort hf ha.2 hwfgs'
    have h2 : (keySortF gs').Perm (keySortF gs) := by
      rw [keySortF_eq_map, keySortF_eq_map]
      exact hperm.map _
    have hkeys : ((keySortF fs).map Prod.fst).Nodup := by
      rw [keySortF_eq_map, List.map_map]
      exact ha.1
    refine congrArg JValue.obj ?_
    rw [h1]
    exact insertionSort_eq_of_perm _ _ h2 (h1 ▸ hkeys)
theorem mapsEqL_keySort : ∀ {xs ys : List JValue}, MapsEqL xs ys → wfL xs = true →
    wfL ys = true → keySortL xs = keySortL ys
  | _, _, .nil, _, _ => rfl
  | _, _, .cons x y xs ys h hl, ha, hb => by
    simp only [keySortL]
    simp only [wfL, Bool.and_eq_true] at ha hb
    rw [mapsEq_keySort h ha.1 hb.1, mapsEqL_keySort hl ha.2 hb.2]
theorem mapsEqF_keySort : ∀ {fs gs : List (String × JValue)}, MapsEqF fs gs →
    wfF fs = true → wfF gs = true → keySortF fs = keySortF gs
  | _, _, .nil, _, _ => rfl
  | _, _, .cons k v w fs gs h hf, ha, hb => by
    simp only [keySortF]
    simp only [wfF, Bool.and_eq_true] at ha hb
    rw [mapsEq_keySort h ha.1 hb.1, mapsEqF_keySort hf ha.2 hb.2]
end

def SUBOBJECT_SEP : String := "_"

def CHILD_TABLE_SEP : String := "__"

def COMPUTED_ID_COLUMN_NAME : String := "computed_id"

def PARENT_ID_COLUMN_NAME : String := "parent_id"

/-- The key join of flatten_dict: parent_key + separator + key when
parent_key is truthy, the key alone otherwise. -/
def joinKey (parentKey : Option String) (k : String) : String :=
  match parentKey with
  | none => k
  | some p => if p = "" then k else p ++ SUBOBJECT_SEP ++ k

mutual
/-- The item accumulation of flatten_dict (flatten_lists is False at its
only call site, add_value_to_row): a dict value recurses, anything else is
appended as a leaf. Each leaf also carries its index in traversal order, so
that mutation through the aliases the flattened view shares with the
original nested dicts can be replayed on the original structure. -/
def flatPairs : Option String → Nat → List (String × JValue) →
    List (String × JValue × Nat) × Nat
  | _, n, [] => ([], n)
  | pk, n, (k, v) :: rest =>
    let r1 := flatVal (joinKey pk k) n v
    let r2 := flatPairs pk r1.2 rest
    (r1.1 ++ r2.1, r2.2)
def flatVal : String → Nat → JValue → List (String × JValue × Nat) × Nat
  | nk, n, .obj fs =>
    let r := flatPairs (some nk) n fs
    (pyDict r.1, r.2)
  | nk, n, v => ([(nk, v, n)], n + 1)
end

/-- flatten_dict as add_value_to_row calls it (flatten_lists=False), with
leaf positions attached: the dict of the collected items. -/
def flattenIdx (fs : List (String × JValue)) (parentKey : Option String) :
    List (String × JValue × Nat) :=
  pyDict (flatPairs parentKey 0 fs).1

/-- flatten_dict of transformation.py (the flattened column-to-value dict). -/
def flatten_dict (fs : List (String × JValue)) (parentKey : Option String) :
    List (String × JValue) :=
  (flattenIdx fs parentKey).map (fun p => (p.1, p.2.1))

mutual
/-- Replays, on the original nested structure, the in-place mutations that
processing the flattened view performed through aliasing: the leaf at
traversal position p takes the recorded value for p when there is one. -/
def wbPairs : List (Nat × JValue) → Nat → List (String × JValue) →
    List (String × JValue) × Nat
  | _, n, [] => ([], n)
  | mutL, n, (k, v) :: rest =>
    let r1 := wbVal mutL n v
    let r2 := wbPairs mutL r1.2 rest
    ((k, r1.1) :: r2.1, r2.2)
def wbVal : List (Nat × JValue) → Nat → JValue → JValue × Nat
  | mutL, n, .obj fs =>
    let r := wbPairs mutL n fs
    (.obj r.1, r.2)
  | mutL, n, v =>
    (match pyGet mutL n with
     | some v1 => v1
     | none => v, n + 1)
end

/-- KeboolaDeleteWhereSpec of transformation.py: a column, the set of
observed parent-id values (modelled as an insertion-ordered duplicate-free
list), and the operator (always "eq" where the code builds one). The set
holds whatever value the parent id is, hence JValue. -/
structure KeboolaDeleteWhereSpec where
  column : String
  values : List JValue
  operator : String
deriving DecidableEq

/-- Python set.add on the list model of a set. -/
def setAdd (l : List JValue) (x : JValue) : List JValue :=
  if x ∈ l then l else l ++ [x]

/-- Table of transformation.py: name, the id column name, rows in arrival
order, child tables keyed by derived name, and the optional delete spec. An
inductive rather than a structure because child tables nest. -/
inductive Table where
  | mk (name : String) (id_column_name : String)
      (rows : List (List (String × JValue)))
      (child_tables : List (String × Table))
      (delete_where_spec : Option KeboolaDeleteWhereSpec)

def Table.name : Table → String
  | .mk n _ _ _ _ => n

def Table.id_column_name : Table → String
  | .mk _ i _ _ _ => i

def Table.rows : Table → List (List (String × JValue))
  | .mk _ _ r _ _ => r

def Table.child_tables : Table → List (String × Table)
  | .mk _ _ _ c _ => c

def Table.delete_where_spec : Table → Option KeboolaDeleteWhereSpec
  | .mk _ _ _ _ s => s

mutual
def decEqT : (a b : Table) → Decidable (a = b)
  | .mk n1 i1 r1 c1 s1, .mk n2 i2 r2 c2 s2 =>
    if h1 : n1 = n2 then
      if h2 : i1 = i2 then
        if h3 : r1 = r2 then
          if h4 : s1 = s2 then
            match decEqTL c1 c2 with
            | .isTrue h5 => .isTrue (by rw [h1, h2, h3, h4, h5])
            | .isFalse h5 => .isFalse (by simp [h5])
          else .isFalse (by simp [h4])
        else .isFalse (by simp [h3])
      else .isFalse (by simp [h2])
    else .isFalse (by simp [h1])
def decEqTL : (a b : List (String × Table)) → Decidable (a = b)
  | [], [] => .isTrue rfl
  | [], _ :: _ => .isFalse nofun
  | _ :: _, [] => .isFalse nofun
  | (k, v) :: xs, (k2, v2) :: ys =>
    if h : k = k2 then
      match decEqT v v2 with
      | .isTrue h1 =>
        match decEqTL xs ys with
        | .isTrue h2 => .isTrue (by rw [h, h1, h2])
        | .isFalse h2 => .isFalse (by simp [h2])
      | .isFalse h1 => .isFalse (by simp [h1])
    else .isFalse (by simp [h])
end

instance : DecidableEq Table := decEqT

/-- Python exceptions the embedded code can raise, plus fuel exhaustion of
the interpreter. Fuel exhaustion corresponds to no Python behavior: it only
truncates the model, it never changes a delivered ok result. -/
inductive Err where
  | valueError
  | keyError
  | attributeError
  | typeError
  | fuelOut
deriving DecidableEq

/-- The child-table selection of the ARRAY_OF_OBJECTS branch:
self.child_tables.get(child_table_name, Table(name=child_table_name,
id_column_name=COMPUTED_ID_COLUMN_NAME, delete_where_spec=
KeboolaDeleteWhereSpec(column=PARENT_ID_COLUMN_NAME))). -/
def getChildTable (children : List (String × Table)) (childName : String) : Table :=
  match pyGet children childName with
  | some c => c
  | none => .mk childName COMPUTED_ID_COLUMN_NAME [] []
      (some ⟨PARENT_ID_COLUMN_NAME, [], "eq"⟩)

theorem getChildTable_none (children : List (String × Table)) (childName : String)
    (h : pyGet children childName = none) :
    getChildTable children childName = .mk childName COMPUTED_ID_COLUMN_NAME [] []
      (some ⟨PARENT_ID_COLUMN_NAME, [], "eq"⟩) := by
  rw [getChildTable, h]

theorem getChildTable_some (children : List (String × Table)) (childName : String)
    (c : Table) (h : pyGet children childName = some c) :
    getChildTable children childName = c := by
  rw [getChildTable, h]

/-- The md5 surrogate id of add_row: the hexdigest of the utf-8 bytes of the
record's sorted-key JSON serialization. -/
def surrogateId (r : List (String × JValue)) : String :=
  md5hex (utf8Bytes (jsonDumpsSorted (.obj r)))

/-- The id value add_row determines first: row_dict.get of the id column
with the md5 surrogate as the default (transformation.py lines 139-144). -/
def rowIdValue (idCol : String) (r : List (String × JValue)) : JValue :=
  match pyGet r idCol with
  | some v => v
  | none => .str (surrogateId r)

mutual
/-- add_value_to_row of Table.add_row: one (column, value) pair into the row
under construction. Arguments: fuel; the owning table's name and id column
(the closure reads self.name and self.id_column_name); the owning table's
child_tables; the column name; the value; the row so far. Returns the row,
the child tables, and the value as mutated in place by parent-id injection. -/
def addValueF : Nat → String → String → List (String × Table) → String → JValue →
    List (String × JValue) →
    Except Err (List (String × JValue) × List (String × Table) × JValue)
  | 0, _, _, _, _, _, _ => .error .fuelOut
  | fuel + 1, selfName, selfIdCol, children, columnName, value, row =>
    if value.falsy then .ok (row, children, value)
    else
      match ColumnType.from_example_value value with
      | none => .error .valueError
      | some .elementary => .ok (pySet row columnName value, children, value)
      | some .object =>
        match value with
        | .obj fs =>
          match addFlatF fuel selfName selfIdCol children (flattenIdx fs (some columnName)) row with
          | .error e => .error e
          | .ok (row1, children1, mutL) => .ok (row1, children1, .obj (wbPairs mutL 0 fs).1)
        | _ => .error .typeError
      | some .array_of_elementary =>
        .ok (pySet row columnName (.str (jsonDumps value)), children, value)
      | some .array_of_objects =>
        match value with
        | .arr elems =>
          let childName := selfName ++ (CHILD_TABLE_SEP ++ columnName)
          match addElemsF fuel selfIdCol (getChildTable children childName) elems row with
          | .error e => .error e
          | .ok (child1, elems1) =>
            .ok (row, pySet children childName child1, .arr elems1)
        | _ => .error .typeError
/-- The element loop of the ARRAY_OF_OBJECTS branch: injects the parent
row's already-processed id into each element, add_rows the element into the
child table, and records the parent id in the child's delete-spec values.
Returns the child table and the elements as mutated. -/
def addElemsF : Nat → String → Table → List JValue → List (String × JValue) →
    Except Err (Table × List JValue)
  | 0, _, _, _, _ => .error .fuelOut
  | _ + 1, _, child, [], _ => .ok (child, [])
  | fuel + 1, selfIdCol, child, e :: rest, row =>
    match pyGet row selfIdCol with
    | none => .error .keyError
    | some parentId =>
      match e with
      | .obj fs =>
        match addRowF fuel child (pySet fs PARENT_ID_COLUMN_NAME parentId) with
        | .error er => .error er
        | .ok (child1, fs2) =>
          match child1.delete_where_spec with
          | none => .error .attributeError
          | some spec =>
            match addElemsF fuel selfIdCol
                (.mk child1.name child1.id_column_name child1.rows child1.child_tables
                  (some ⟨spec.column, setAdd spec.values parentId, spec.operator⟩)) rest row with
            | .error er => .error er
            | .ok (childF, restMut) => .ok (childF, .obj fs2 :: restMut)
      | _ => .error .typeError
/-- The loop over the flattened items of an OBJECT value: re-dispatches each
flattened (column, value) through add_value_to_row, recording per leaf
position the value as mutated by its dispatch. -/
def addFlatF : Nat → String → String → List (String × Table) →
    List (String × JValue × Nat) → List (String × JValue) →
    Except Err (List (String × JValue) × List (String × Table) × List (Nat × JValue))
  | 0, _, _, _, _, _ => .error .fuelOut
  | _ + 1, _, _, children, [], row => .ok (row, children, [])
  | fuel + 1, selfName, selfIdCol, children, (k, v, pos) :: rest, row =>
    match addValueF fuel selfName selfIdCol children k v row with
    | .error e => .error e
    | .ok (row1, children1, v1) =>
      match addFlatF fuel selfName selfIdCol children1 rest row1 with
      | .error e => .error e
      | .ok (row2, children2, mutL) => .ok (row2, children2, (pos, v1) :: mutL)
/-- The field loop of add_row: every field other than the id column is
dispatched through add_value_to_row, in record order; the id column's slot
keeps the value object the id pass already processed (and mutated). -/
def addFieldsF : Nat → String → String → List (String × Table) →
    List (String × JValue) → List (String × JValue) → JValue →
    Except Err (List (String × JValue) × List (String × Table) × List (String × JValue))
  | 0, _, _, _, _, _, _ => .error .fuelOut
  | _ + 1, _, _, children, [], row, _ => .ok (row, children, [])
  | fuel + 1, selfName, selfIdCol, children, (k, v) :: rest, row, idMut =>
    if k = selfIdCol then
      match addFieldsF fuel selfName selfIdCol children rest row idMut with
      | .error e => .error e
      | .ok (row1, children1, rest1) => .ok (row1, children1, (k, idMut) :: rest1)
    else
      match addValueF fuel selfName selfIdCol children k v row with
      | .error e => .error e
      | .ok (row1, children1, v1) =>
        match addFieldsF fuel selfName selfIdCol children1 rest row1 idMut with
        | .error e => .error e
        | .ok (row2, children2, rest2) => .ok (row2, children2, (k, v1) :: rest2)
/-- Table.add_row: determines the id value (record value or md5 surrogate),
processes the id column first into a fresh row, then every other field in
record order, appends the processed row, and returns the table together
with the record as mutated in place by parent-id injection. -/
def addRowF : Nat → Table → List (String × JValue) →
    Except Err (Table × List (String × JValue))
  | 0, _, _ => .error .fuelOut
  | fuel + 1, .mk name idCol rows children spec, r =>
    match addValueF fuel name idCol children idCol (rowIdValue idCol r) [] with
    | .error e => .error e
    | .ok (row1, children1, idMut) =>
      match addFieldsF fuel name idCol children1 r row1 idMut with
      | .error e => .error e
      | .ok (row2, children2, r2) =>
        .ok (.mk name idCol (rows ++ [row2]) children2 spec, r2)
end

/-- The add_row loop of Table.from_dicts. -/
def addRowsF (fuel : Nat) : Table → List (List (String × JValue)) → Except Err Table
  | t, [] => .ok t
  | t, r :: rest =>
    match addRowF fuel t r with
    | .error e => .error e
    | .ok (t1, _) => addRowsF fuel t1 rest

/-- Table.from_dicts: raises ValueError on an empty dict list, replaces a
falsy id_column_name by computed_id, and add_rows every dict into a fresh
table. -/
def from_dicts (fuel : Nat) (name : String) (dicts : List (List (String × JValue)))
    (idColumnName : Option String) : Except Err Table :=
  if dicts.length < 1 then .error .valueError
  else
    addRowsF fuel
      (.mk name
        (match idColumnName with
         | none => COMPUTED_ID_COLUMN_NAME
         | some s => if s = "" then COMPUTED_ID_COLUMN_NAME else s) [] [] none)
      dicts

/-- str.isprintable of Python on one character, exact up to code point 0xa0
(printable ASCII is 0x20 to 0x7e; C0 controls, DEL, C1 controls and no-break
space are not printable). Code points from 0xa1 up are treated as printable,
an approximation of the Unicode category table that is exact on every string
the claims touch. -/
def pyIsPrintable (c : Char) : Bool :=
  if c.toNat < 0x20 then false
  else if c.toNat ≤ 0x7e then true
  else if c.toNat ≤ 0xa0 then false
  else true

/-- The join of the printable characters of a string, as the generator
expression in Component.remove_non_utf8 builds it. -/
def stripNonPrintable (s : String) : String :=
  String.mk (s.toList.filter pyIsPrintable)

/-- Component.remove_non_utf8: builds a fresh row keeping only the
string-valued entries, each stripped of its non-printable characters; an
entry whose value is not a string is dropped entirely, because the
isinstance check guards the only assignment into new_row. The input is a
row dict, so keys are unique and each assignment appends. -/
def remove_non_utf8 : List (String × JValue) → List (String × JValue)
  | [] => []
  | (k, .str s) :: rest => (k, .str (stripNonPrintable s)) :: remove_non_utf8 rest
  | _ :: rest => remove_non_utf8 rest

/-- The per-row write of Component.process_table: writerow, and on
UnicodeEncodeError a retry with the remove_non_utf8 image of the same row.
Whether the writer raises is environmental (it depends on the writer's
encoding), so it enters as a predicate; returned is the row the writer ends
up consuming, the write itself never being abandoned. -/
def writeRowWithFallback (encodes : List (String × JValue) → Bool)
    (row : List (String × JValue)) : List (String × JValue) :=
  if encodes row then row else remove_non_utf8 row

/-- Outcome of the table-building step of one run of Component.run. -/
inductive RunOutcome where
  | processed (t : Table)
  | warnedEmpty

/-- Modelled from the spec: ResultTable.from_dicts as component.py imports
it (the ResultTable variant of the transformation module is not under src/;
only its caller Component.run is). Per the spec, a batch yielding zero
usable records is EmptyResultSet, a non-fatal condition: no table comes
back rather than an error. A nonempty batch builds the table by repeated
add_row with the record-id field as the externally supplied id column. -/
def resultTableFromDicts (fuel : Nat) (name : String)
    (records : List (List (String × JValue))) (idColumnName : String) :
    Except Err (Option Table) :=
  match records with
  | [] => .ok none
  | _ :: _ =>
    match addRowsF fuel (.mk name idColumnName [] [] none) records with
    | .error e => .error e
    | .ok t => .ok (some t)

/-- The result_table step of Component.run (component.py lines 135 to 144):
builds the run's table from the batch of processed records, processes the
table when one comes back, and otherwise logs the warning about the empty
result and carries on. -/
def runBatch (fuel : Nat) (name : String)
    (records : List (List (String × JValue))) : Except Err RunOutcome :=
  match resultTableFromDicts fuel name records "record_id" with
  | .error e => .error e
  | .ok none => .ok .warnedEmpty
  | .ok (some t) => .ok (.processed t)

theorem pyGet_mem {κ α : Type} [DecidableEq κ] (l : List (κ × α)) (k : κ) (v : α)
    (h : pyGet l k = some v) : (k, v) ∈ l := by
  induction l with
  | nil => simp [pyGet] at h
  | cons p rest ih =>
    obtain ⟨k0, v0⟩ := p
    by_cases h0 : k0 = k
    · subst h0
      simp [pyGet] at h
      simp [h]
    · simp [pyGet, h0] at h
      simp [ih h]

theorem jsonDumps_arr_ne_empty (xs : List JValue) : jsonDumps (.arr xs) ≠ "" := by
  intro h
  have hl := congrArg String.length h
  simp [jsonDumps, String.length_append] at hl
  exact absurd hl.1.1 (by decide)

theorem dumps_arr_falsy (xs : List JValue) :
    (JValue.str (jsonDumps (.arr xs))).falsy = false := by
  simp [JValue.falsy]
  exact jsonDumps_arr_ne_empty xs

theorem surrogate_falsy (r : List (String × JValue)) :
    (JValue.str (surrogateId r)).falsy = false := by
  simp [JValue.falsy]
  exact md5hex_ne_empty _

/-- Row evolution along add_value_to_row: any binding it adds or changes
carries a truthy value, and no binding is ever removed (a present binding
stays present, either untouched or overwritten by a truthy value). -/
def RowEvolves (row row' : List (String × JValue)) : Prop :=
  (∀ k w, pyGet row' k = some w → pyGet row k = some w ∨ w.falsy = false) ∧
  (∀ k w, pyGet row k = some w → ∃ w', pyGet row' k = some w' ∧ (w' = w ∨ w'.falsy = false))

theorem rowEvolves_refl (row : List (String × JValue)) : RowEvolves row row :=
  ⟨fun _ _ h => Or.inl h, fun _ w h => ⟨w, h, Or.inl rfl⟩⟩

theorem rowEvolves_trans {a b c : List (String × JValue)} (h1 : RowEvolves a b)
    (h2 : RowEvolves b c) : RowEvolves a c := by
  constructor
  · intro k w h
    rcases h2.1 k w h with h' | h'
    · exact h1.1 k w h'
    · exact Or.inr h'
  · intro k w h
    rcases h1.2 k w h with ⟨w1, hw1, hc1⟩
    rcases h2.2 k w1 hw1 with ⟨w2, hw2, hc2⟩
    refine ⟨w2, hw2, ?_⟩
    rcases hc2 with rfl | h'
    · exact hc1
    · exact Or.inr h'

theorem rowEvolves_pySet (row : List (String × JValue)) (k : String) (v : JValue)
    (hv : v.falsy = false) : RowEvolves row (pySet row k v) := by
  constructor
  · intro k' w h
    by_cases hk : k = k'
    · subst hk
      rw [pyGet_pySet_self] at h
      injection h with h
      exact Or.inr (h ▸ hv)
    · rw [pyGet_pySet_ne _ _ _ _ hk] at h
      exact Or.inl h
  · intro k' w h
    by_cases hk : k = k'
    · subst hk
      exact ⟨v, pyGet_pySet_self _ _ _, Or.inr hv⟩
    · exact ⟨w, (pyGet_pySet_ne _ _ _ _ hk).symm ▸ h, Or.inl rfl⟩

/-- Along any successful add_value_to_row, flattened-items loop or field
loop, the row under construction only evolves: values written are truthy
and present bindings never disappear. -/
theorem rowEvolves_main : ∀ fuel : Nat,
    (∀ sn si ch col v row out, addValueF fuel sn si ch col v row = .ok out →
      RowEvolves row out.1) ∧
    (∀ sn si ch flat row out, addFlatF fuel sn si ch flat row = .ok out →
      RowEvolves row out.1) ∧
    (∀ sn si ch fields row idm out, addFieldsF fuel sn si ch fields row idm = .ok out →
      RowEvolves row out.1) := by
  intro fuel
  induction fuel with
  | zero =>
    refine ⟨?_, ?_, ?_⟩
    · intro sn si ch col v row out h
      simp [addValueF] at h
    · intro sn si ch flat row out h
      simp [addFlatF] at h
    · intro sn si ch fields row idm out h
      simp [addFieldsF] at h
  | succ n ih =>
    obtain ⟨ihV, ihFl, ihFd⟩ := ih
    refine ⟨?_, ?_, ?_⟩
    · intro sn si ch col v row out h
      cases v with
      | null =>
        simp [addValueF, JValue.falsy] at h
        rw [← h]
        exact rowEvolves_refl row
      | bool b =>
        by_cases hf : (JValue.bool b).falsy = true
        · simp [addValueF, hf] at h
          rw [← h]
          exact rowEvolves_refl row
        · have hff : (JValue.bool b).falsy = false := by rwa [Bool.not_eq_true] at hf
          simp [addValueF, hff, ColumnType.from_example_value] at h
          rw [← h]
          exact rowEvolves_pySet row col _ hff
      | int i =>
        by_cases hf : (JValue.int i).falsy = true
        · simp [addValueF, hf] at h
          rw [← h]
          exact rowEvolves_refl row
        · have hff : (JValue.int i).falsy = false := by rwa [Bool.not_eq_true] at hf
          simp [addValueF, hff, ColumnType.from_example_value] at h
          rw [← h]
          exact rowEvolves_pySet row col _ hff
      | str s =>
        by_cases hf : (JValue.str s).falsy = true
        · simp [addValueF, hf] at h
          rw [← h]
          exact rowEvolves_refl row
        · have hff : (JValue.str s).falsy = false := by rwa [Bool.not_eq_true] at hf
          simp [addValueF, hff, ColumnType.from_example_value] at h
          rw [← h]
          exact rowEvolves_pySet row col _ hff
      | obj fs =>
        by_cases hf : (JValue.obj fs).falsy = true
        · simp [addValueF, hf] at h
          rw [← h]
          exact rowEvolves_refl row
        · have hff : (JValue.obj fs).falsy = false := by rwa [Bool.not_eq_true] at hf
          simp [addValueF, hff, ColumnType.from_example_value] at h
          rcases hfl : addFlatF n sn si ch (flattenIdx fs (some col)) row with e | ⟨row1, ch1, m1⟩
          · rw [hfl] at h
            simp at h
          · rw [hfl] at h
            simp at h
            have hev := ihFl sn si ch (flattenIdx fs (some col)) row (row1, ch1, m1) hfl
            rw [← h]
            exact hev
      | arr xs =>
        by_cases hf : (JValue.arr xs).falsy = true
        · simp [addValueF, hf] at h
          rw [← h]
          exact rowEvolves_refl row
        · have hff : (JValue.arr xs).falsy = false := by rwa [Bool.not_eq_true] at hf
          by_cases hae : xs.all JValue.isElementary
          · simp [addValueF, hff, ColumnType.from_example_value, hae] at h
            rw [← h]
            exact rowEvolves_pySet row col _ (dumps_arr_falsy xs)
          · by_cases hao : xs.all JValue.isObj
            · simp [addValueF, hff, ColumnType.from_example_value, hae, hao] at h
              rcases hel : addElemsF n si
                  (getChildTable ch (sn ++ (CHILD_TABLE_SEP ++ col))) xs row with e | ⟨c1, el1⟩
              · rw [hel] at h
                simp at h
              · rw [hel] at h
                simp at h
                rw [← h]
                exact rowEvolves_refl row
            · simp [addValueF, hff, ColumnType.from_example_value, hae, hao] at h
    · intro sn si ch flat row out h
      match flat with
      | [] =>
        rw [addFlatF] at h
        simp at h
        subst h
        exact rowEvolves_refl row
      | (k, v, pos) :: rest =>
        rw [addFlatF] at h
        rcases hv : addValueF n sn si ch k v row with e | ⟨row1, ch1, v1⟩
        · rw [hv] at h
          simp at h
        · rw [hv] at h
          simp at h
          rcases hrest : addFlatF n sn si ch1 rest row1 with e | ⟨row2, ch2, m2⟩
          · rw [hrest] at h
            simp at h
          · rw [hrest] at h
            simp at h
            rw [← h]
            exact rowEvolves_trans (ihV sn si ch k v row (row1, ch1, v1) hv)
              (ihFl sn si ch1 rest row1 (row2, ch2, m2) hrest)
    · intro sn si ch fields row idm out h
      match fields with
      | [] =>
        rw [addFieldsF] at h
        simp at h
        subst h
        exact rowEvolves_refl row
      | (k, v) :: rest =>
        rw [addFieldsF] at h
        by_cases hk : k = si
        · simp [hk] at h
          rcases hrest : addFieldsF n sn si ch rest row idm with e | ⟨row1, ch1, r1⟩
          · rw [hrest] at h
            simp at h
          · rw [hrest] at h
            simp at h
            rw [← h]
            exact ihFd sn si ch rest row idm (row1, ch1, r1) hrest
        · simp [hk] at h
          rcases hv : addValueF n sn si ch k v row with e | ⟨row1, ch1, v1⟩
          · rw [hv] at h
            simp at h
          · rw [hv] at h
            simp at h
            rcases hrest : addFieldsF n sn si ch1 rest row1 idm with e | ⟨row2, ch2, r2⟩
            · rw [hrest] at h
              simp at h
            · rw [hrest] at h
              simp at h
              rw [← h]
              exact rowEvolves_trans (ihV sn si ch k v row (row1, ch1, v1) hv)
                (ihFd sn si ch1 rest row1 idm (row2, ch2, r2) hrest)

instance {ε α : Type} [DecidableEq ε] [DecidableEq α] : DecidableEq (Except ε α)
  | .ok a, .ok b =>
    if h : a = b then .isTrue (by rw [h]) else .isFalse (by simp [h])
  | .error a, .error b =>
    if h : a = b then .isTrue (by rw [h]) else .isFalse (by simp [h])
  | .ok _, .error _ => .isFalse nofun
  | .error _, .ok _ => .isFalse nofun

/-- Inversion of a successful add_row: the call ran the id pass on a fresh
row, then the field loop, and appended exactly one row, leaving name, id
column and delete spec unchanged. -/
theorem addRow_ok_cases (fuel : Nat) (t : Table) (r : List (String × JValue))
    (out : Table × List (String × JValue)) (h : addRowF fuel t r = .ok out) :
    ∃ n row1 ch1 idMut row2 ch2 r2,
      fuel = n + 1 ∧
      addValueF n t.name t.id_column_name t.child_tables t.id_column_name
        (rowIdValue t.id_column_name r) [] = .ok (row1, ch1, idMut) ∧
      addFieldsF n t.name t.id_column_name ch1 r row1 idMut = .ok (row2, ch2, r2) ∧
      out = (.mk t.name t.id_column_name (t.rows ++ [row2]) ch2 t.delete_where_spec, r2) := by
  match fuel with
  | 0 => simp [addRowF] at h
  | n + 1 =>
    cases t with
    | mk name idCol rows children spec =>
      rw [addRowF] at h
      rcases hid : addValueF n name idCol children idCol (rowIdValue idCol r) [] with
        e | ⟨row1, ch1, idMut⟩
      · rw [hid] at h
        simp at h
      · rw [hid] at h
        simp at h
        rcases hfd : addFieldsF n name idCol ch1 r row1 idMut with e | ⟨row2, ch2, r2⟩
        · rw [hfd] at h
          simp at h
        · rw [hfd] at h
          simp at h
          exact ⟨n, row1, ch1, idMut, row2, ch2, r2, rfl, hid, hfd, h.symm⟩

/-- The id value is acceptable for row identification: absent (so the md5
surrogate is used), or truthy and elementary, or a truthy array of
elementary values. A falsy or object-shaped or object-array id value leaves
the row without its id column (or raises), which is what claim C5's
counterexample exhibits. -/
def idValueOkB (idCol : String) (r : List (String × JValue)) : Bool :=
  match pyGet r idCol with
  | none => true
  | some v => !v.falsy &&
      (v.isElementary || (match v with | .arr xs => xs.all JValue.isElementary | _ => false))

/-- The id pass writes a truthy id binding whenever the id value is
acceptable. -/
theorem addValue_id_write (fuel : Nat) (sn si : String) (ch : List (String × Table))
    (r : List (String × JValue))
    (out : List (String × JValue) × List (String × Table) × JValue)
    (hok : idValueOkB si r = true)
    (h : addValueF fuel sn si ch si (rowIdValue si r) [] = .ok out) :
    ∃ w, pyGet out.1 si = some w ∧ w.falsy = false := by
  match fuel with
  | 0 => simp [addValueF] at h
  | n + 1 =>
    rcases hg : pyGet r si with _ | v
    · rw [rowIdValue, hg] at h
      simp [addValueF, surrogate_falsy r, ColumnType.from_example_value] at h
      refine ⟨.str (surrogateId r), ?_, surrogate_falsy r⟩
      rw [← h]
      exact pyGet_pySet_self _ _ _
    · rw [rowIdValue, hg] at h
      rw [idValueOkB, hg] at hok
      simp at hok
      obtain ⟨hff, hshape⟩ := hok
      cases v with
      | null => simp [JValue.falsy] at hff
      | bool b =>
        simp [addValueF, hff, ColumnType.from_example_value] at h
        refine ⟨.bool b, ?_, hff⟩
        rw [← h]
        exact pyGet_pySet_self _ _ _
      | int i =>
        simp [addValueF, hff, ColumnType.from_example_value] at h
        refine ⟨.int i, ?_, hff⟩
        rw [← h]
        exact pyGet_pySet_self _ _ _
      | str s =>
        simp [addValueF, hff, ColumnType.from_example_value] at h
        refine ⟨.str s, ?_, hff⟩
        rw [← h]
        exact pyGet_pySet_self _ _ _
      | obj fs =>
        rcases hshape with hbad | hbad
        · simp [JValue.isElementary] at hbad
        · simp at hbad
      | arr xs =>
        rcases hshape with hbad | hsh
        · simp [JValue.isElementary] at hbad
        · have hsh2 : xs.all JValue.isElementary = true := hsh
          simp [addValueF, hff, ColumnType.from_example_value, hsh2] at h
          refine ⟨.str (jsonDumps (.arr xs)), ?_, dumps_arr_falsy xs⟩
          rw [← h]
          exact pyGet_pySet_self _ _ _

/-- Claim C1: falsy omission. Generally, every binding of a row produced by
add_row carries a truthy value: a field whose value is falsy (0, empty
string, false, null, an empty container) contributes no binding and is
never stored as an empty leaf. Concretely, the record with id r1, count 0
and empty name produces exactly the one-column row with the id; count and
name are absent (and the record comes back unmutated). -/
theorem c1_falsy_omission :
    (∀ fuel t r out, addRowF fuel t r = .ok out →
      ∃ ρ, out.1.rows = t.rows ++ [ρ] ∧ ∀ k w, pyGet ρ k = some w → w.falsy = false) ∧
    addRowF 9 (.mk "t" "id" [] [] none)
      [("id", .str "r1"), ("count", .int 0), ("name", .str "")] =
      .ok (.mk "t" "id" [[("id", .str "r1")]] [] none,
        [("id", .str "r1"), ("count", .int 0), ("name", .str "")]) := by
  constructor
  · intro fuel t r out h
    obtain ⟨n, row1, ch1, idMut, row2, ch2, r2, rfl, hid, hfd, hout⟩ :=
      addRow_ok_cases fuel t r out h
    have h1 := (rowEvolves_main n).1 _ _ _ _ _ _ _ hid
    have h2 := (rowEvolves_main n).2.2 _ _ _ _ _ _ _ hfd
    refine ⟨row2, by rw [hout]; rfl, ?_⟩
    intro k w hw
    rcases (rowEvolves_trans h1 h2).1 k w hw with hcon | hok2
    · simp [pyGet] at hcon
    · exact hok2
  · decide

theorem c1_falsy_omission_witness :
    ∃ ρ, (Table.mk "t" "id" [[("id", JValue.str "r1")]] [] none,
        ([("id", JValue.str "r1"), ("count", JValue.int 0), ("name", JValue.str "")] :
          List (String × JValue))).1.rows = (Table.mk "t" "id" [] [] none).rows ++ [ρ] ∧
      ∀ k w, pyGet ρ k = some w → w.falsy = false :=
  c1_falsy_omission.1 9 (.mk "t" "id" [] [] none)
    [("id", .str "r1"), ("count", .int 0), ("name", .str "")]
    (.mk "t" "id" [[("id", .str "r1")]] [] none,
      [("id", .str "r1"), ("count", .int 0), ("name", .str "")]) (by decide)

/-- Claim C5 (counterexample): a record binding the id column to a falsy
value, here the empty string, is stored as a row with no id binding at all:
the falsy-omission policy drops the id column, so the invariant fails as
stated. -/
theorem c5_counterexample :
    addRowF 9 (.mk "t" "id" [] [] none) [("id", .str "")] =
      .ok (.mk "t" "id" [[]] [] none, [("id", .str "")]) ∧
    pyGet ([] : List (String × JValue)) "id" = none := by decide

/-- Claim C5 (amended): every row stored by add_row has the table's id
column bound to a truthy value, provided every added record either lacks
the id column (the md5 surrogate is then used) or binds it to a truthy
elementary value or truthy array of elementary values. The unamended claim
fails on exactly the excluded shapes: a falsy id value (the counterexample)
or an object-shaped id value is dropped by the falsy/flatten policy,
leaving the stored row without its id column. -/
theorem c5_id_populated (fuel : Nat) (t : Table) (r : List (String × JValue))
    (out : Table × List (String × JValue))
    (h : addRowF fuel t r = .ok out)
    (hok : idValueOkB t.id_column_name r = true)
    (hprev : ∀ ρ ∈ t.rows, ∃ w, pyGet ρ t.id_column_name = some w ∧ w.falsy = false) :
    out.1.id_column_name = t.id_column_name ∧
    ∀ ρ ∈ out.1.rows, ∃ w, pyGet ρ t.id_column_name = some w ∧ w.falsy = false := by
  obtain ⟨n, row1, ch1, idMut, row2, ch2, r2, rfl, hid, hfd, hout⟩ :=
    addRow_ok_cases fuel t r out h
  obtain ⟨w, hw, hwf⟩ := addValue_id_write n t.name t.id_column_name t.child_tables r _ hok hid
  have h2 := (rowEvolves_main n).2.2 _ _ _ _ _ _ _ hfd
  obtain ⟨w2, hw2, hc2⟩ := h2.2 _ _ hw
  constructor
  · rw [hout]; rfl
  · intro ρ hρ
    rw [hout] at hρ
    simp [Table.rows] at hρ
    rcases hρ with hρ | rfl
    · exact hprev ρ hρ
    · refine ⟨w2, hw2, ?_⟩
      rcases hc2 with rfl | hf2
      · exact hwf
      · exact hf2

theorem c5_id_populated_witness :
    (Table.mk "t" "id" [[("id", JValue.str "r1")]] [] none).id_column_name = "id" ∧
    ∀ ρ ∈ (Table.mk "t" "id" [[("id", JValue.str "r1")]] [] none).rows,
      ∃ w, pyGet ρ "id" = some w ∧ w.falsy = false :=
  c5_id_populated 9 (.mk "t" "id" [] [] none) [("id", .str "r1")]
    (.mk "t" "id" [[("id", .str "r1")]] [] none, [("id", .str "r1")])
    (by decide) (by decide) (by intro ρ hρ; simp [Table.rows] at hρ)

set_option maxRecDepth 40000 in
/-- Claim C6 (counterexample): with the externally supplied id column and a
record that does not contain it, add_row does not fail with any error: it
computes the md5 surrogate over the record's sorted-key JSON and produces
the row (add_row has no MissingIdentifier; the dict-get default covers the
absent column). -/
theorem c6_counterexample :
    addRowF 9 (.mk "t" "id" [] [] none) [("a", .int 1)] =
      .ok (.mk "t" "id" [[("id", .str (surrogateId [("a", .int 1)])), ("a", .int 1)]] [] none,
        [("a", .int 1)]) := by decide

/-- Claim C6 (amended): when the configured id column is absent from the
record, the identifier falls back to the md5 surrogate of the record's
sorted-key JSON serialization, and add_row appends a row bound to a truthy
id value; no error is raised for the missing identifier. -/
theorem c6_surrogate_fallback (fuel : Nat) (t : Table) (r : List (String × JValue))
    (out : Table × List (String × JValue))
    (habs : pyGet r t.id_column_name = none)
    (h : addRowF fuel t r = .ok out) :
    rowIdValue t.id_column_name r = .str (surrogateId r) ∧
    ∃ ρ w, out.1.rows = t.rows ++ [ρ] ∧ pyGet ρ t.id_column_name = some w ∧
      w.falsy = false := by
  have hok : idValueOkB t.id_column_name r = true := by rw [idValueOkB, habs]
  obtain ⟨n, row1, ch1, idMut, row2, ch2, r2, rfl, hid, hfd, hout⟩ :=
    addRow_ok_cases fuel t r out h
  obtain ⟨w, hw, hwf⟩ := addValue_id_write n t.name t.id_column_name t.child_tables r _ hok hid
  have h2 := (rowEvolves_main n).2.2 _ _ _ _ _ _ _ hfd
  obtain ⟨w2, hw2, hc2⟩ := h2.2 _ _ hw
  refine ⟨by rw [rowIdValue, habs], row2, w2, by rw [hout]; rfl, hw2, ?_⟩
  rcases hc2 with rfl | hf2
  · exact hwf
  · exact hf2

set_option maxRecDepth 40000 in
theorem c6_surrogate_fallback_witness :
    rowIdValue "id" [("a", JValue.int 1)] = .str (surrogateId [("a", JValue.int 1)]) ∧
    ∃ ρ w, (Table.mk "t" "id"
        [[("id", JValue.str (surrogateId [("a", JValue.int 1)])), ("a", JValue.int 1)]] [] none,
        ([("a", JValue.int 1)] : List (String × JValue))).1.rows =
        (Table.mk "t" "id" [] [] none).rows ++ [ρ] ∧
      pyGet ρ "id" = some w ∧ w.falsy = false :=
  c6_surrogate_fallback 9 (.mk "t" "id" [] [] none) [("a", .int 1)]
    (.mk "t" "id" [[("id", .str (surrogateId [("a", .int 1)])), ("a", .int 1)]] [] none,
      [("a", .int 1)]) (by decide) (by decide)

/-- Claim C8: a batch yielding zero usable records is a non-fatal
condition: the run's table-building step comes back with the warned-empty
outcome (Component.run logs the warning about the empty result and carries
on with no rows for the batch) instead of failing with an error. -/
theorem c8_empty_batch_warns (fuel : Nat) (name : String) :
    runBatch fuel name [] = .ok .warnedEmpty := rfl

theorem remove_non_utf8_absent (row : List (String × JValue)) (k : String)
    (h : k ∉ row.map Prod.fst) : pyGet (remove_non_utf8 row) k = none := by
  induction row with
  | nil => simp [remove_non_utf8, pyGet]
  | cons p rest ih =>
    obtain ⟨k0, v0⟩ := p
    rw [List.map_cons] at h
    have hk0 : ¬ k = k0 := fun hh => h (by simp [hh])
    have hrest : k ∉ rest.map Prod.fst := fun hh => h (by simp [hh])
    have hne : ¬ k0 = k := fun hh => hk0 hh.symm
    cases v0 with
    | null => simpa [remove_non_utf8] using ih hrest
    | bool b => simpa [remove_non_utf8] using ih hrest
    | int i => simpa [remove_non_utf8] using ih hrest
    | arr xs => simpa [remove_non_utf8] using ih hrest
    | obj fs => simpa [remove_non_utf8] using ih hrest
    | str s => simp [remove_non_utf8, pyGet, hne, ih hrest]

theorem remove_non_utf8_lookup (row : List (String × JValue))
    (hnd : (row.map Prod.fst).Nodup) (k : String) :
    pyGet (remove_non_utf8 row) k =
      (match pyGet row k with
       | some (.str s) => some (.str (stripNonPrintable s))
       | _ => none) := by
  induction row with
  | nil => simp [remove_non_utf8, pyGet]
  | cons p rest ih =>
    obtain ⟨k0, v0⟩ := p
    rw [List.map_cons, List.nodup_cons] at hnd
    obtain ⟨hk0, hrest⟩ := hnd
    by_cases hk : k0 = k
    · subst hk
      cases v0 with
      | str s => simp [remove_non_utf8, pyGet]
      | null => simp [remove_non_utf8, pyGet, remove_non_utf8_absent rest k0 hk0]
      | bool b => simp [remove_non_utf8, pyGet, remove_non_utf8_absent rest k0 hk0]
      | int i => simp [remove_non_utf8, pyGet, remove_non_utf8_absent rest k0 hk0]
      | arr xs => simp [remove_non_utf8, pyGet, remove_non_utf8_absent rest k0 hk0]
      | obj fs => simp [remove_non_utf8, pyGet, remove_non_utf8_absent rest k0 hk0]
    · cases v0 with
      | str s => simp [remove_non_utf8, pyGet, hk, ih hrest]
      | null => simp [remove_non_utf8, pyGet, hk, ih hrest]
      | bool b => simp [remove_non_utf8, pyGet, hk, ih hrest]
      | int i => simp [remove_non_utf8, pyGet, hk, ih hrest]
      | arr xs => simp [remove_non_utf8, pyGet, hk, ih hrest]
      | obj fs => simp [remove_non_utf8, pyGet, hk, ih hrest]

/-- Claim C9 (counterexample): on an encoding failure the retried row does
NOT keep all of its columns: remove_non_utf8 keeps only string-valued
entries, so the integer column b is dropped from the written row (while the
string column a is kept with its non-printable character stripped). -/
theorem c9_counterexample :
    writeRowWithFallback (fun _ => false) [("a", .str "x\x00y"), ("b", .int 5)] =
      [("a", .str "xy")] ∧
    pyGet (writeRowWithFallback (fun _ => false) [("a", .str "x\x00y"), ("b", .int 5)]) "b" =
      none := by decide

/-- Claim C9 (amended): when writing a row fails with an encoding error the
write is retried, not aborted, with the remove_non_utf8 image of the same
row; the retried row binds exactly the string-valued columns of the
original, each stripped of its non-printable characters, and columns whose
value is not a string are dropped. -/
theorem c9_sanitized_retry (encodes : List (String × JValue) → Bool)
    (row : List (String × JValue)) (hnd : (row.map Prod.fst).Nodup)
    (henc : encodes row = false) :
    writeRowWithFallback encodes row = remove_non_utf8 row ∧
    ∀ k, pyGet (remove_non_utf8 row) k =
      (match pyGet row k with
       | some (.str s) => some (.str (stripNonPrintable s))
       | _ => none) :=
  ⟨by simp [writeRowWithFallback, henc], fun k => remove_non_utf8_lookup row hnd k⟩

theorem c9_sanitized_retry_witness :
    (([("a", JValue.str "x\x00y"), ("b", JValue.int 5)].map Prod.fst).Nodup) ∧
    pyGet (remove_non_utf8 [("a", JValue.str "x\x00y"), ("b", JValue.int 5)]) "b" =
      (match pyGet [("a", JValue.str "x\x00y"), ("b", JValue.int 5)] "b" with
       | some (.str s) => some (.str (stripNonPrintable s))
       | _ => none) :=
  ⟨by decide,
    (c9_sanitized_retry (fun _ => false) [("a", .str "x\x00y"), ("b", .int 5)]
      (by decide) rfl).2 "b"⟩

/-- Claim C10: underscore-joined flattening can collide and silently lose
data: the record carrying both a leaf field a_b (value 1) and an object
field a whose nested key b flattens to the same column a_b (value 2)
produces, without any error, a row in which a_b holds the later-processed
value 2 — the leaf value 1 is overwritten. -/
theorem c10_flatten_collision :
    addRowF 9 (.mk "t" "id" [] [] none)
      [("id", .str "r"), ("a_b", .int 1), ("a", .obj [("b", .int 2)])] =
      .ok (.mk "t" "id" [[("id", .str "r"), ("a_b", .int 2)]] [] none,
        [("id", .str "r"), ("a_b", .int 1), ("a", .obj [("b", .int 2)])]) ∧
    pyGet [("id", JValue.str "r"), ("a_b", JValue.int 2)] "a_b" = some (.int 2) := by decide

/-- Claim C2: surrogate-id determinism. For two well-formed records that
contain no value for the table's id column and are equal as nested
key-value mappings (same keys and values at every nesting level, in any key
order), the identifier add_row determines (rowIdValue, transformation.py
lines 139 to 144) is for both the md5 digest of the record's sorted-key
JSON serialization, and the two digests coincide. -/
theorem c2_surrogate_deterministic (idCol : String) (r1 r2 : List (String × JValue))
    (hw1 : wfJ (.obj r1) = true) (hw2 : wfJ (.obj r2) = true)
    (heq : MapsEq (.obj r1) (.obj r2))
    (h1 : pyGet r1 idCol = none) (h2 : pyGet r2 idCol = none) :
    rowIdValue idCol r1 = .str (surrogateId r1) ∧
    rowIdValue idCol r2 = .str (surrogateId r2) ∧
    surrogateId r1 = md5hex (utf8Bytes (jsonDumps (keySort (.obj r1)))) ∧
    surrogateId r1 = surrogateId r2 := by
  refine ⟨by rw [rowIdValue, h1], by rw [rowIdValue, h2], rfl, ?_⟩
  unfold surrogateId jsonDumpsSorted
  rw [mapsEq_keySort heq hw1 hw2]

theorem c2_surrogate_deterministic_witness :
    rowIdValue "id" [("b", JValue.int 1), ("a", JValue.str "x")] =
      .str (surrogateId [("b", JValue.int 1), ("a", JValue.str "x")]) ∧
    rowIdValue "id" [("a", JValue.str "x"), ("b", JValue.int 1)] =
      .str (surrogateId [("a", JValue.str "x"), ("b", JValue.int 1)]) ∧
    surrogateId [("b", JValue.int 1), ("a", JValue.str "x")] =
      md5hex (utf8Bytes (jsonDumps (keySort (.obj [("b", JValue.int 1), ("a", JValue.str "x")])))) ∧
    surrogateId [("b", JValue.int 1), ("a", JValue.str "x")] =
      surrogateId [("a", JValue.str "x"), ("b", JValue.int 1)] := by
  have heq : MapsEq (.obj [("b", JValue.int 1), ("a", JValue.str "x")])
      (.obj [("a", JValue.str "x"), ("b", JValue.int 1)]) := by
    refine MapsEq.obj _ _ [("b", JValue.int 1), ("a", JValue.str "x")] ?_ ?_
    · exact List.Perm.swap ("a", JValue.str "x") ("b", JValue.int 1) []
    · exact MapsEqF.cons _ _ _ _ _ (MapsEq.int 1)
        (MapsEqF.cons _ _ _ _ _ (MapsEq.str "x") MapsEqF.nil)
  exact c2_surrogate_deterministic "id" _ _ (by decide) (by decide) heq (by decide) (by decide)

theorem surrogate_beq_empty (r : List (String × JValue)) : (surrogateId r == "") = false := by
  rw [beq_eq_false_iff_ne]
  exact md5hex_ne_empty _

theorem addValueF_elementary (m : Nat) (sn si : String) (ch : List (String × Table))
    (col : String) (v : JValue) (row : List (String × JValue))
    (h1 : v.falsy = false) (h2 : v.isElementary = true) :
    addValueF (m + 1) sn si ch col v row = .ok (pySet row col v, ch, v) := by
  cases v with
  | null => simp [JValue.falsy] at h1
  | bool b => simp [addValueF, h1, ColumnType.from_example_value]
  | int i => simp [addValueF, h1, ColumnType.from_example_value]
  | str s => simp [addValueF, h1, ColumnType.from_example_value]
  | arr xs => simp [JValue.isElementary] at h2
  | obj fs => simp [JValue.isElementary] at h2

theorem addRow_child_pair (m : Nat) (cn : String) (crows : List (List (String × JValue)))
    (cch : List (String × Table)) (csp : Option KeboolaDeleteWhereSpec) (a : JValue)
    (ha1 : a.falsy = false) (ha2 : a.isElementary = true) :
    addRowF (m + 1 + 1 + 1 + 1) (.mk cn "computed_id" crows cch csp)
        [("a", a), ("parent_id", .str "r1")] =
      .ok (.mk cn "computed_id" (crows ++
          [[("computed_id", .str (surrogateId [("a", a), ("parent_id", .str "r1")])),
            ("a", a), ("parent_id", .str "r1")]]) cch csp,
        [("a", a), ("parent_id", .str "r1")]) := by
  rw [addRowF]
  have hidv : rowIdValue "computed_id" [("a", a), ("parent_id", .str "r1")] =
      .str (surrogateId [("a", a), ("parent_id", .str "r1")]) := by
    simp [rowIdValue, pyGet]
  rw [hidv, addValueF_elementary (m + 1 + 1) _ _ _ _ _ _ (surrogate_falsy _) rfl]
  have hA : ∀ row, addValueF (m + 2) cn "computed_id" cch "a" a row = .ok (pySet row "a" a, cch, a) :=
    fun row => addValueF_elementary (m + 1) cn "computed_id" cch "a" a row ha1 ha2
  simp [addFieldsF, hA, addValueF_elementary, ha1, ha2, JValue.falsy, JValue.isElementary, pySet]

theorem mem_setAdd_self (l : List JValue) (x : JValue) : x ∈ setAdd l x := by
  by_cases h : x ∈ l <;> simp [setAdd, h]

/-- Claim C3: for a table with id column 'id' and the record
{id: "r1", items: [{a:1}, {a:2}]}, add_row creates (or reuses, when one is
already keyed there) the child table keyed and named T.name ++ "__items",
appends exactly 2 rows to it, each carrying parent_id == "r1", and records
"r1" in the child table's delete-spec values. -/
theorem c3_child_table_linkage (nm : String) (rows crows : List (List (String × JValue)))
    (ch cch : List (String × Table)) (sp : Option KeboolaDeleteWhereSpec)
    (dcol : String) (dvals : List JValue) (dop : String)
    (out : Table × List (String × JValue))
    (hch : getChildTable ch (nm ++ "__items") =
      .mk (nm ++ "__items") "computed_id" crows cch (some ⟨dcol, dvals, dop⟩))
    (h : addRowF 12 (.mk nm "id" rows ch sp)
        [("id", .str "r1"), ("items", .arr [.obj [("a", .int 1)], .obj [("a", .int 2)]])] =
      .ok out) :
    ∃ c2 ρ1 ρ2,
      pyGet out.1.child_tables (nm ++ "__items") = some c2 ∧
      c2.name = nm ++ "__items" ∧
      c2.rows = crows ++ [ρ1, ρ2] ∧
      pyGet ρ1 PARENT_ID_COLUMN_NAME = some (.str "r1") ∧
      pyGet ρ2 PARENT_ID_COLUMN_NAME = some (.str "r1") ∧
      ∃ dsp2, c2.delete_where_spec = some dsp2 ∧ JValue.str "r1" ∈ dsp2.values := by
  have h1 := addRow_child_pair 3 (nm ++ "__items") crows cch (some ⟨dcol, dvals, dop⟩)
    (.int 1) (by decide) (by decide)
  have h2 := addRow_child_pair 2 (nm ++ "__items")
    (crows ++ [[("computed_id", .str (surrogateId [("a", .int 1), ("parent_id", .str "r1")])),
      ("a", .int 1), ("parent_id", .str "r1")]])
    cch (some ⟨dcol, setAdd dvals (.str "r1"), dop⟩) (.int 2) (by decide) (by decide)
  norm_num at h1 h2
  have hkey : nm ++ (CHILD_TABLE_SEP ++ "items") = nm ++ "__items" := rfl
  have heq : addRowF 12 (.mk nm "id" rows ch sp)
      [("id", .str "r1"), ("items", .arr [.obj [("a", .int 1)], .obj [("a", .int 2)]])] =
    .ok (.mk nm "id" (rows ++ [[("id", .str "r1")]])
        (pySet ch (nm ++ "__items")
          (.mk (nm ++ "__items") "computed_id"
            (crows ++
              [[("computed_id", .str (surrogateId [("a", .int 1), ("parent_id", .str "r1")])),
                ("a", .int 1), ("parent_id", .str "r1")],
               [("computed_id", .str (surrogateId [("a", .int 2), ("parent_id", .str "r1")])),
                ("a", .int 2), ("parent_id", .str "r1")]]) cch
            (some ⟨dcol, setAdd (setAdd dvals (.str "r1")) (.str "r1"), dop⟩))) sp,
      [("id", .str "r1"),
       ("items", .arr [.obj [("a", .int 1), ("parent_id", .str "r1")],
                       .obj [("a", .int 2), ("parent_id", .str "r1")]])]) := by
    rw [addRowF]
    simp [addValueF, addFieldsF, addElemsF, rowIdValue, pyGet, pySet,
      ColumnType.from_example_value, JValue.falsy, JValue.isElementary, JValue.isObj,
      PARENT_ID_COLUMN_NAME, hkey, hch, h1, h2,
      Table.name, Table.id_column_name, Table.rows, Table.child_tables,
      Table.delete_where_spec]
  rw [heq] at h
  injection h with h3
  subst h3
  refine ⟨_, _, _, pyGet_pySet_self _ _ _, rfl, rfl, rfl, rfl, _, rfl, ?_⟩
  exact mem_setAdd_self _ _

set_option maxRecDepth 100000 in
theorem c3_child_table_linkage_witness :
    ∃ out, addRowF 12 (.mk "t" "id" [] [] none)
        [("id", .str "r1"), ("items", .arr [.obj [("a", .int 1)], .obj [("a", .int 2)]])] =
      .ok out ∧
    ∃ c2 ρ1 ρ2,
      pyGet out.1.child_tables ("t" ++ "__items") = some c2 ∧
      c2.name = "t" ++ "__items" ∧
      c2.rows = [] ++ [ρ1, ρ2] ∧
      pyGet ρ1 PARENT_ID_COLUMN_NAME = some (.str "r1") ∧
      pyGet ρ2 PARENT_ID_COLUMN_NAME = some (.str "r1") ∧
      ∃ dsp2, c2.delete_where_spec = some dsp2 ∧ JValue.str "r1" ∈ dsp2.values :=
  ⟨(.mk "t" "id" [[("id", .str "r1")]]
      [("t" ++ "__items", .mk ("t" ++ "__items") "computed_id"
        [[("computed_id", .str (surrogateId [("a", .int 1), ("parent_id", .str "r1")])),
          ("a", .int 1), ("parent_id", .str "r1")],
         [("computed_id", .str (surrogateId [("a", .int 2), ("parent_id", .str "r1")])),
          ("a", .int 2), ("parent_id", .str "r1")]]
        [] (some ⟨"parent_id", [.str "r1"], "eq"⟩))] none,
    [("id", .str "r1"),
     ("items", .arr [.obj [("a", .int 1), ("parent_id", .str "r1")],
                     .obj [("a", .int 2), ("parent_id", .str "r1")]])]),
   by decide,
   c3_child_table_linkage "t" [] [] [] [] none "parent_id" [] "eq" _ rfl (by decide)⟩

/-- Claim C4: a nested-object field is inlined into the parent row under
underscore-joined column names, recursively (the addr example yields columns
id, addr_city, addr_zip_code with values r1, X, 1), and every flattened
leaf is re-dispatched through the per-field classification, so an
array-of-objects nested inside an object spins off a child table named from
the top-level table (nm ++ "__f_items"), whose element rows carry the
parent id. -/
theorem c4_object_flatten (nm : String) :
    (addRowF 12 (.mk "t" "id" [] [] none)
        [("id", .str "r1"),
         ("addr", .obj [("city", .str "X"), ("zip", .obj [("code", .str "1")])])] =
      .ok (.mk "t" "id"
          [[("id", .str "r1"), ("addr_city", .str "X"), ("addr_zip_code", .str "1")]] [] none,
        [("id", .str "r1"),
         ("addr", .obj [("city", .str "X"), ("zip", .obj [("code", .str "1")])])])) ∧
    (addRowF 12 (.mk nm "id" [] [] none)
        [("id", .str "r1"), ("f", .obj [("items", .arr [.obj [("a", .int 1)]])])] =
      .ok (.mk nm "id" [[("id", .str "r1")]]
          [(nm ++ "__f_items", .mk (nm ++ "__f_items") "computed_id"
            [[("computed_id", .str (surrogateId [("a", .int 1), ("parent_id", .str "r1")])),
              ("a", .int 1), ("parent_id", .str "r1")]]
            [] (some ⟨"parent_id", [.str "r1"], "eq"⟩))] none,
        [("id", .str "r1"),
         ("f", .obj [("items", .arr [.obj [("a", .int 1), ("parent_id", .str "r1")]])])])) := by
  constructor
  · decide
  · have h1 := addRow_child_pair 1 (nm ++ "__f_items") [] []
      (some ⟨"parent_id", [], "eq"⟩) (.int 1) (by decide) (by decide)
    norm_num at h1
    have hkey2 : (("f" ++ SUBOBJECT_SEP) ++ "items" : String) = "f_items" := rfl
    have hkey : nm ++ (CHILD_TABLE_SEP ++ "f_items") = nm ++ "__f_items" := rfl
    rw [addRowF]
    simp [addValueF, addFieldsF, addElemsF, addFlatF, rowIdValue, pyGet, pySet,
      flattenIdx, flatPairs, flatVal, joinKey, wbPairs, wbVal, setAdd, getChildTable,
      ColumnType.from_example_value, JValue.falsy, JValue.isElementary, JValue.isObj,
      PARENT_ID_COLUMN_NAME, COMPUTED_ID_COLUMN_NAME, hkey2, hkey, h1,
      Table.name, Table.id_column_name, Table.rows, Table.child_tables,
      Table.delete_where_spec]

mutual
/-- No value reachable by add_value_to_row's dispatch (descending through
dict nesting) classifies as ARRAY_OF_OBJECTS: every array is an elementary
array or mixed, never all-dict. Such records are the ones add_row flattens
without mutating in place. -/
def noOAV : JValue → Bool
  | .obj fs => noOAF fs
  | .arr xs => xs.all JValue.isElementary || !(xs.all JValue.isObj)
  | _ => true
def noOAF : List (String × JValue) → Bool
  | [] => true
  | (_, v) :: rest => noOAV v && noOAF rest
end

theorem noOAF_mem : ∀ (fs : List (String × JValue)), noOAF fs = true →
    ∀ k v, (k, v) ∈ fs → noOAV v = true
  | [], _, _, _, h => by simp at h
  | (k0, v0) :: rest, hno, k, v, h => by
    rw [noOAF, Bool.and_eq_true] at hno
    rcases List.mem_cons.mp h with h1 | h1
    · injection h1 with _ h2
      rw [h2]
      exact hno.1
    · exact noOAF_mem rest hno.2 k v h1

mutual
/-- Counters grow along flatten_dict's traversal, and every collected leaf
position lies in the traversal's counter range. -/
theorem flatPairs_range : ∀ (pk : Option String) (n : Nat) (fs : List (String × JValue)),
    n ≤ (flatPairs pk n fs).2 ∧
    ∀ k v pos, (k, v, pos) ∈ (flatPairs pk n fs).1 →
      n ≤ pos ∧ pos < (flatPairs pk n fs).2
  | _, n, [] => ⟨Nat.le_refl n, by simp [flatPairs]⟩
  | pk, n, (k0, v0) :: rest => by
    have h1 := flatVal_range (joinKey pk k0) n v0
    have h2 := flatPairs_range pk (flatVal (joinKey pk k0) n v0).2 rest
    simp only [flatPairs]
    refine ⟨le_trans h1.1 h2.1, ?_⟩
    intro k v pos h
    rcases List.mem_append.mp h with hm | hm
    · have := h1.2 k v pos hm
      exact ⟨this.1, lt_of_lt_of_le this.2 h2.1⟩
    · have := h2.2 k v pos hm
      exact ⟨le_trans h1.1 this.1, this.2⟩
theorem flatVal_range : ∀ (nk : String) (n : Nat) (v0 : JValue),
    n ≤ (flatVal nk n v0).2 ∧
    ∀ k v pos, (k, v, pos) ∈ (flatVal nk n v0).1 →
      n ≤ pos ∧ pos < (flatVal nk n v0).2
  | nk, n, .null => by
    simp only [flatVal]
    refine ⟨Nat.le_succ n, ?_⟩
    intro k v pos h
    simp at h
    omega
  | nk, n, .bool b => by
    simp only [flatVal]
    refine ⟨Nat.le_succ n, ?_⟩
    intro k v pos h
    simp at h
    omega
  | nk, n, .int i => by
    simp only [flatVal]
    refine ⟨Nat.le_succ n, ?_⟩
    intro k v pos h
    simp at h
    omega
  | nk, n, .str s => by
    simp only [flatVal]
    refine ⟨Nat.le_succ n, ?_⟩
    intro k v pos h
    simp at h
    omega
  | nk, n, .arr xs => by
    simp only [flatVal]
    refine ⟨Nat.le_succ n, ?_⟩
    intro k v pos h
    simp at h
    omega
  | nk, n, .obj fs => by
    have h1 := flatPairs_range (some nk) n fs
    simp only [flatVal]
    refine ⟨h1.1, ?_⟩
    intro k v pos h
    exact h1.2 k v pos (mem_pyDict _ _ h)
end

mutual
/-- Flatten leaves of a no-array-of-objects field list are themselves
no-array-of-objects values. -/
theorem flatPairs_noOA : ∀ (pk : Option String) (n : Nat) (fs : List (String × JValue)),
    noOAF fs = true → ∀ k v pos, (k, v, pos) ∈ (flatPairs pk n fs).1 → noOAV v = true
  | _, _, [], _ => by simp [flatPairs]
  | pk, n, (k0, v0) :: rest, hno => by
    rw [noOAF, Bool.and_eq_true] at hno
    intro k v pos h
    simp only [flatPairs] at h
    rcases List.mem_append.mp h with hm | hm
    · exact flatVal_noOA (joinKey pk k0) n v0 hno.1 k v pos hm
    · exact flatPairs_noOA pk _ rest hno.2 k v pos hm
theorem flatVal_noOA : ∀ (nk : String) (n : Nat) (v0 : JValue), noOAV v0 = true →
    ∀ k v pos, (k, v, pos) ∈ (flatVal nk n v0).1 → noOAV v = true
  | nk, n, .null, hno => by
    intro k v pos h
    simp [flatVal] at h
    rw [h.2.1]
    exact hno
  | nk, n, .bool b, hno => by
    intro k v pos h
    simp [flatVal] at h
    rw [h.2.1]
    exact hno
  | nk, n, .int i, hno => by
    intro k v pos h
    simp [flatVal] at h
    rw [h.2.1]
    exact hno
  | nk, n, .str s, hno => by
    intro k v pos h
    simp [flatVal] at h
    rw [h.2.1]
    exact hno
  | nk, n, .arr xs, hno => by
    intro k v pos h
    simp [flatVal] at h
    rw [h.2.1]
    exact hno
  | nk, n, .obj fs, hno => by
    intro k v pos h
    exact flatPairs_noOA (some nk) n fs hno k v pos (mem_pyDict _ _ h)
end

theorem pyGet_map_mem : ∀ (l : List (String × JValue × Nat)) (pos : Nat) (v' : JValue),
    pyGet (l.map (fun p => (p.2.2, p.2.1))) pos = some v' → ∃ k, (k, v', pos) ∈ l
  | [], _, _, h => by simp [pyGet] at h
  | (k0, v0, p0) :: rest, pos, v', h => by
    simp only [List.map_cons, pyGet] at h
    by_cases hp : p0 = pos
    · rw [if_pos hp] at h
      injection h with h
      exact ⟨k0, by rw [← h, ← hp]; exact List.mem_cons_self _ _⟩
    · rw [if_neg hp] at h
      obtain ⟨k, hk⟩ := pyGet_map_mem rest pos v' h
      exact ⟨k, List.mem_cons_of_mem _ hk⟩

mutual
/-- Writing back recorded leaf mutations whose values are the original
leaves leaves the nested structure unchanged, and the writeback walk counts
positions exactly as the flatten walk did. -/
theorem wbPairs_id : ∀ (pk : Option String) (n : Nat) (fs : List (String × JValue))
    (mutL : List (Nat × JValue)),
    (∀ pos v', pyGet mutL pos = some v' → n ≤ pos → pos < (flatPairs pk n fs).2 →
      ∃ k, (k, v', pos) ∈ (flatPairs pk n fs).1) →
    wbPairs mutL n fs = (fs, (flatPairs pk n fs).2)
  | _, n, [], mutL, _ => by simp [wbPairs, flatPairs]
  | pk, n, (k0, v0) :: rest, mutL, H => by
    have hr1 := flatVal_range (joinKey pk k0) n v0
    have hr2 := flatPairs_range pk (flatVal (joinKey pk k0) n v0).2 rest
    have hv : wbVal mutL n v0 = (v0, (flatVal (joinKey pk k0) n v0).2) := by
      refine wbVal_id (joinKey pk k0) n v0 mutL ?_
      intro pos v' hg hge hlt
      have hlt2 : pos < (flatPairs pk n ((k0, v0) :: rest)).2 := by
        simp only [flatPairs]
        exact lt_of_lt_of_le hlt hr2.1
      obtain ⟨k, hk⟩ := H pos v' hg hge hlt2
      simp only [flatPairs] at hk
      rcases List.mem_append.mp hk with hm | hm
      · exact ⟨k, hm⟩
      · exact absurd (hr2.2 k v' pos hm).1 (by omega)
    have hrest : wbPairs mutL (flatVal (joinKey pk k0) n v0).2 rest =
        (rest, (flatPairs pk (flatVal (joinKey pk k0) n v0).2 rest).2) := by
      refine wbPairs_id pk _ rest mutL ?_
      intro pos v' hg hge hlt
      have hge2 : n ≤ pos := le_trans hr1.1 hge
      have hlt2 : pos < (flatPairs pk n ((k0, v0) :: rest)).2 := by
        simp only [flatPairs]
        exact hlt
      obtain ⟨k, hk⟩ := H pos v' hg hge2 hlt2
      simp only [flatPairs] at hk
      rcases List.mem_append.mp hk with hm | hm
      · exact absurd (hr1.2 k v' pos hm).2 (by omega)
      · exact ⟨k, hm⟩
    simp only [wbPairs, flatPairs, hv, hrest]
theorem wbVal_id : ∀ (nk : String) (n : Nat) (v0 : JValue) (mutL : List (Nat × JValue)),
    (∀ pos v', pyGet mutL pos = some v' → n ≤ pos → pos < (flatVal nk n v0).2 →
      ∃ k, (k, v', pos) ∈ (flatVal nk n v0).1) →
    wbVal mutL n v0 = (v0, (flatVal nk n v0).2)
  | nk, n, .null, mutL, H => by
    simp only [wbVal, flatVal]
    rcases hg : pyGet mutL n with _ | v'
    · rfl
    · obtain ⟨k, hk⟩ := H n v' hg (Nat.le_refl n) (Nat.lt_succ_self n)
      simp [flatVal] at hk
      rw [hk.2]
  | nk, n, .bool b, mutL, H => by
    simp only [wbVal, flatVal]
    rcases hg : pyGet mutL n with _ | v'
    · rfl
    · obtain ⟨k, hk⟩ := H n v' hg (Nat.le_refl n) (Nat.lt_succ_self n)
      simp [flatVal] at hk
      rw [hk.2]
  | nk, n, .int i, mutL, H => by
    simp only [wbVal, flatVal]
    rcases hg : pyGet mutL n with _ | v'
    · rfl
    · obtain ⟨k, hk⟩ := H n v' hg (Nat.le_refl n) (Nat.lt_succ_self n)
      simp [flatVal] at hk
      rw [hk.2]
  | nk, n, .str s, mutL, H => by
    simp only [wbVal, flatVal]
    rcases hg : pyGet mutL n with _ | v'
    · rfl
    · obtain ⟨k, hk⟩ := H n v' hg (Nat.le_refl n) (Nat.lt_succ_self n)
      simp [flatVal] at hk
      rw [hk.2]
  | nk, n, .arr xs, mutL, H => by
    simp only [wbVal, flatVal]
    rcases hg : pyGet mutL n with _ | v'
    · rfl
    · obtain ⟨k, hk⟩ := H n v' hg (Nat.le_refl n) (Nat.lt_succ_self n)
      simp [flatVal] at hk
      rw [hk.2]
  | nk, n, .obj fs, mutL, H => by
    have h1 : wbPairs mutL n fs = (fs, (flatPairs (some nk) n fs).2) := by
      refine wbPairs_id (some nk) n fs mutL ?_
      intro pos v' hg hge hlt
      obtain ⟨k, hk⟩ := H pos v' hg hge (by simpa [flatVal] using hlt)
      simp only [flatVal] at hk
      exact ⟨k, mem_pyDict _ _ hk⟩
    simp only [wbVal, flatVal, h1]
end

/-- Under no-array-of-objects input, add_value_to_row and its loops leave
the child tables untouched, return every dispatched value unchanged, and
rebuild the record's fields exactly as given: nothing is mutated in place. -/
theorem noOA_inv : ∀ fuel : Nat,
    (∀ sn si ch col v row out, noOAV v = true →
      addValueF fuel sn si ch col v row = .ok out → out.2.1 = ch ∧ out.2.2 = v) ∧
    (∀ sn si ch flat row out, (∀ p ∈ flat, noOAV p.2.1 = true) →
      addFlatF fuel sn si ch flat row = .ok out →
      out.2.1 = ch ∧ out.2.2 = flat.map (fun p => (p.2.2, p.2.1))) ∧
    (∀ sn si ch fields row idm out, noOAF fields = true →
      (∀ kv ∈ fields, kv.1 = si → idm = kv.2) →
      addFieldsF fuel sn si ch fields row idm = .ok out →
      out.2.1 = ch ∧ out.2.2 = fields) := by
  intro fuel
  induction fuel with
  | zero =>
    refine ⟨?_, ?_, ?_⟩
    · intro sn si ch col v row out _ h
      simp [addValueF] at h
    · intro sn si ch flat row out _ h
      simp [addFlatF] at h
    · intro sn si ch fields row idm out _ _ h
      simp [addFieldsF] at h
  | succ n ih =>
    obtain ⟨ihV, ihFl, ihFd⟩ := ih
    refine ⟨?_, ?_, ?_⟩
    · intro sn si ch col v row out hno h
      cases v with
      | null =>
        simp [addValueF, JValue.falsy] at h
        rw [← h]
        exact ⟨rfl, rfl⟩
      | bool b =>
        by_cases hf : (JValue.bool b).falsy = true
        · simp [addValueF, hf] at h
          rw [← h]
          exact ⟨rfl, rfl⟩
        · have hff : (JValue.bool b).falsy = false := by rwa [Bool.not_eq_true] at hf
          simp [addValueF, hff, ColumnType.from_example_value] at h
          rw [← h]
          exact ⟨rfl, rfl⟩
      | int i =>
        by_cases hf : (JValue.int i).falsy = true
        · simp [addValueF, hf] at h
          rw [← h]
          exact ⟨rfl, rfl⟩
        · have hff : (JValue.int i).falsy = false := by rwa [Bool.not_eq_true] at hf
          simp [addValueF, hff, ColumnType.from_example_value] at h
          rw [← h]
          exact ⟨rfl, rfl⟩
      | str s =>
        by_cases hf : (JValue.str s).falsy = true
        · simp [addValueF, hf] at h
          rw [← h]
          exact ⟨rfl, rfl⟩
        · have hff : (JValue.str s).falsy = false := by rwa [Bool.not_eq_true] at hf
          simp [addValueF, hff, ColumnType.from_example_value] at h
          rw [← h]
          exact ⟨rfl, rfl⟩
      | obj fs =>
        by_cases hf : (JValue.obj fs).falsy = true
        · simp [addValueF, hf] at h
          rw [← h]
          exact ⟨rfl, rfl⟩
        · have hff : (JValue.obj fs).falsy = false := by rwa [Bool.not_eq_true] at hf
          simp [addValueF, hff, ColumnType.from_example_value] at h
          rcases hfl : addFlatF n sn si ch (flattenIdx fs (some col)) row with e | ⟨row1, ch1, m1⟩
          · rw [hfl] at h
            simp at h
          · rw [hfl] at h
            simp at h
            have hnoF : noOAF fs = true := by rwa [noOAV] at hno
            have hflno : ∀ p ∈ flattenIdx fs (some col), noOAV p.2.1 = true := by
              intro p hp
              obtain ⟨k, v, pos⟩ := p
              exact flatPairs_noOA (some col) 0 fs hnoF k v pos (mem_pyDict _ _ hp)
            have hinv := ihFl sn si ch (flattenIdx fs (some col)) row (row1, ch1, m1) hflno hfl
            have hwb : wbPairs m1 0 fs = (fs, (flatPairs (some col) 0 fs).2) := by
              refine wbPairs_id (some col) 0 fs m1 ?_
              intro pos v' hg hge hlt
              have hm1 : m1 = (flattenIdx fs (some col)).map (fun p => (p.2.2, p.2.1)) :=
                hinv.2
              rw [hm1] at hg
              obtain ⟨k, hk⟩ := pyGet_map_mem _ pos v' hg
              exact ⟨k, mem_pyDict _ _ hk⟩
            rw [← h]
            exact ⟨hinv.1, by rw [hwb]⟩
      | arr xs =>
        by_cases hf : (JValue.arr xs).falsy = true
        · simp [addValueF, hf] at h
          rw [← h]
          exact ⟨rfl, rfl⟩
        · have hff : (JValue.arr xs).falsy = false := by rwa [Bool.not_eq_true] at hf
          by_cases hae : xs.all JValue.isElementary
          · simp [addValueF, hff, ColumnType.from_example_value, hae] at h
            rw [← h]
            exact ⟨rfl, rfl⟩
          · by_cases hao : xs.all JValue.isObj
            · simp [noOAV, hae, hao] at hno
            · simp [addValueF, hff, ColumnType.from_example_value, hae, hao] at h
    · intro sn si ch flat row out hno h
      match flat with
      | [] =>
        rw [addFlatF] at h
        simp at h
        subst h
        exact ⟨rfl, rfl⟩
      | (k, v, pos) :: rest =>
        rw [addFlatF] at h
        rcases hv : addValueF n sn si ch k v row with e | ⟨row1, ch1, v1⟩
        · rw [hv] at h
          simp at h
        · rw [hv] at h
          simp at h
          rcases hrest : addFlatF n sn si ch1 rest row1 with e | ⟨row2, ch2, m2⟩
          · rw [hrest] at h
            simp at h
          · rw [hrest] at h
            simp at h
            have h1 := ihV sn si ch k v row (row1, ch1, v1)
              (hno (k, v, pos) (List.mem_cons_self _ _)) hv
            have hch1 : ch1 = ch := h1.1
            rw [hch1] at hrest
            have h2 := ihFl sn si ch rest row1 (row2, ch2, m2)
              (fun p hp => hno p (List.mem_cons_of_mem _ hp)) hrest
            rw [← h]
            refine ⟨h2.1, ?_⟩
            have hm2 : m2 = rest.map (fun p => (p.2.2, p.2.1)) := h2.2
            have hv1 : v1 = v := h1.2
            simp only [List.map_cons]
            rw [hm2, hv1]
    · intro sn si ch fields row idm out hno hid h
      match fields with
      | [] =>
        rw [addFieldsF] at h
        simp at h
        subst h
        exact ⟨rfl, rfl⟩
      | (k, v) :: rest =>
        rw [addFieldsF] at h
        rw [noOAF, Bool.and_eq_true] at hno
        by_cases hk : k = si
        · rw [if_pos hk] at h
          rcases hrest : addFieldsF n sn si ch rest row idm with e | ⟨row1, ch1, rest1⟩
          · rw [hrest] at h
            simp at h
          · rw [hrest] at h
            simp at h
            have h2 := ihFd sn si ch rest row idm (row1, ch1, rest1) hno.2
              (fun kv hkv => hid kv (List.mem_cons_of_mem _ hkv)) hrest
            rw [← h]
            refine ⟨h2.1, ?_⟩
            have hidv : idm = v := hid (k, v) (List.mem_cons_self _ _) hk
            have hr1 : rest1 = rest := h2.2
            rw [hr1, hidv]
        · rw [if_neg hk] at h
          rcases hv : addValueF n sn si ch k v row with e | ⟨row1, ch1, v1⟩
          · rw [hv] at h
            simp at h
          · rw [hv] at h
            simp at h
            rcases hrest : addFieldsF n sn si ch1 rest row1 idm with e | ⟨row2, ch2, rest2⟩
            · rw [hrest] at h
              simp at h
            · rw [hrest] at h
              simp at h
              have h1 := ihV sn si ch k v row (row1, ch1, v1) hno.1 hv
              have hch1 : ch1 = ch := h1.1
              rw [hch1] at hrest
              have h2 := ihFd sn si ch rest row1 idm (row2, ch2, rest2) hno.2
                (fun kv hkv => hid kv (List.mem_cons_of_mem _ hkv)) hrest
              rw [← h]
              refine ⟨h2.1, ?_⟩
              have hr2 : rest2 = rest := h2.2
              have hv1 : v1 = v := h1.2
              rw [hr2, hv1]

theorem pyGet_eq_of_mem_nodup {κ α : Type} [DecidableEq κ] :
    ∀ (l : List (κ × α)) (k : κ) (v : α), (k, v) ∈ l → (l.map Prod.fst).Nodup →
    pyGet l k = some v
  | [], k, v, h, _ => by simp at h
  | (k0, v0) :: rest, k, v, h, hnd => by
    rw [List.map_cons, List.nodup_cons] at hnd
    rcases List.mem_cons.mp h with h1 | h1
    · injection h1 with h2 h3
      simp [pyGet, h2, h3]
    · have hne : ¬ k0 = k := by
        intro he
        subst he
        exact hnd.1 (List.mem_map.mpr ⟨(k0, v), h1, rfl⟩)
      rw [pyGet, if_neg hne]
      exact pyGet_eq_of_mem_nodup rest k v h1 hnd.2

/-- Claim C7 (amended): for a record with unique keys containing no
array-of-objects anywhere, add_row leaves the record and the child tables
unchanged, and a second add_row call on the result appends exactly the
same row again. (With an array of objects present, the record is mutated
in place and the second row differs.) -/
theorem c7_idempotent_without_object_arrays (fuel : Nat) (t : Table)
    (r : List (String × JValue)) (out : Table × List (String × JValue))
    (hno : noOAF r = true) (hnd : (r.map Prod.fst).Nodup)
    (h : addRowF fuel t r = .ok out) :
    out.2 = r ∧ ∃ ρ,
      out.1 = .mk t.name t.id_column_name (t.rows ++ [ρ]) t.child_tables
        t.delete_where_spec ∧
      addRowF fuel out.1 r =
        .ok (.mk t.name t.id_column_name (t.rows ++ [ρ, ρ]) t.child_tables
          t.delete_where_spec, r) := by
  obtain ⟨n, row1, ch1, idMut, row2, ch2, r2, rfl, hid, hfd, hout⟩ :=
    addRow_ok_cases fuel t r out h
  have hnoid : noOAV (rowIdValue t.id_column_name r) = true := by
    rw [rowIdValue]
    rcases hg : pyGet r t.id_column_name with _ | v
    · rfl
    · exact noOAF_mem r hno _ v (pyGet_mem r _ v hg)
  have h1 := (noOA_inv n).1 t.name t.id_column_name t.child_tables t.id_column_name
    (rowIdValue t.id_column_name r) [] (row1, ch1, idMut) hnoid hid
  have hch1 : ch1 = t.child_tables := h1.1
  have hidm : idMut = rowIdValue t.id_column_name r := h1.2
  have hslot : ∀ kv ∈ r, kv.1 = t.id_column_name → idMut = kv.2 := by
    intro kv hkv hkk
    obtain ⟨k', v'⟩ := kv
    rw [hidm, rowIdValue]
    have hg : pyGet r t.id_column_name = some v' :=
      pyGet_eq_of_mem_nodup r _ v' (hkk ▸ hkv) hnd
    rw [hg]
  rw [hch1] at hfd
  have h2 := (noOA_inv n).2.2 t.name t.id_column_name t.child_tables r row1 idMut
    (row2, ch2, r2) hno hslot hfd
  have hch2 : ch2 = t.child_tables := h2.1
  have hr2 : r2 = r := h2.2
  refine ⟨by rw [hout]; exact hr2, row2, by rw [hout, hch2], ?_⟩
  have hout1 : out.1 = Table.mk t.name t.id_column_name (t.rows ++ [row2])
      t.child_tables t.delete_where_spec := by
    rw [hout, hch2]
  rw [hout1, addRowF, hid]
  simp only []
  rw [hch1, hfd]
  simp only []
  rw [hch2, hr2]
  simp [List.append_assoc]

set_option maxRecDepth 100000 in
theorem c7_idempotent_without_object_arrays_witness :
    ((Table.mk "t" "id" [[("id", JValue.str (surrogateId [("a", JValue.int 1)])),
        ("a", JValue.int 1)]] [] none,
      [("a", JValue.int 1)]) : Table × List (String × JValue)).2 = [("a", JValue.int 1)] ∧
    ∃ ρ, (Table.mk "t" "id" [[("id", JValue.str (surrogateId [("a", JValue.int 1)])),
        ("a", JValue.int 1)]] [] none,
        ([("a", JValue.int 1)] : List (String × JValue))).1 =
      .mk "t" "id" ([] ++ [ρ]) [] none ∧
      addRowF 9 (Table.mk "t" "id" [[("id", JValue.str (surrogateId [("a", JValue.int 1)])),
          ("a", JValue.int 1)]] [] none,
        ([("a", JValue.int 1)] : List (String × JValue))).1 [("a", JValue.int 1)] =
        .ok (.mk "t" "id" ([] ++ [ρ, ρ]) [] none, [("a", JValue.int 1)]) :=
  c7_idempotent_without_object_arrays 9 (.mk "t" "id" [] [] none) [("a", .int 1)]
    (.mk "t" "id" [[("id", .str (surrogateId [("a", .int 1)])), ("a", .int 1)]] [] none,
      [("a", .int 1)])
    (by decide) (by decide) (by decide)

set_option maxRecDepth 400000 in
/-- Claim C7 (counterexample): the record with an array-of-objects field is
mutated in place by add_row (parent_id injection through the flattened
aliases), so the second of two add_row calls on the same record appends a
row with a different surrogate id: the two appended rows are not
identical. -/
theorem c7_counterexample :
    ((addRowF 20 (.mk "t" "id" [] [] none)
          [("items", .arr [.obj [("a", .int 1)]])]).bind
        (fun p => addRowF 20 p.1 p.2)).map
      (fun p => (p.1.rows.length, decide (p.1.rows[0]? = p.1.rows[1]?))) =
    .ok (2, false) := by decide
